import Mathlib

/-!
CoronaBack: the key-value ABCI application of `kv.go`.

A shallow embedding of `kv.go` and a verification of its specification.

* Go byte slices and strings are lists of bytes (`Bytes`).
* The Go standard-library functions the program calls (`bytes.Split`, `bytes.Equal`,
  `strings.Contains`, `strings.Split`, `json.Marshal`) are transcribed from the library's
  own algorithms, for the non-empty separators the program passes.
* The storage engine (badger) is modelled by its transaction contract: a committed
  key/value map read through `Txn.Get`, and an update transaction that buffers `Set`
  calls and applies them on `Commit`.  The error returns of `Get` and `Set` are modelled:
  `ErrEmptyKey`, `ErrInvalidKey`, the 65000-byte key limit, `ErrDiscardedTxn`, and
  `ErrTxnTooBig` of `txn.checkSize`, with the batch limits of `badger.DefaultOptions`
  (the program that opens the database is not part of `kv.go`).  Two things are not part
  of the concrete engine: the limit on the size of one value, which is the size of a
  value-log file (1 GiB by default) and beyond any transaction the consensus engine
  delivers, and I/O faults.  The bodies of the `db.View` closures are written over an
  abstract reader, so that a faulty reader can be supplied as well.
* A Go `panic` (explicit, a nil dereference, or an index out of range) is an
  `Except.error`.
-/

namespace KV

/-! ## Bytes -/

/-- Go `[]byte` and `string`: a sequence of bytes. -/
abbrev Bytes := List UInt8

/-- The bytes of an ASCII source literal. -/
def ascii (s : String) : Bytes := s.toList.map (fun c => c.toNat.toUInt8)

/-! ## Go standard library: `bytes` and `strings` -/

/-- `bytes.Index` / `strings.Index`: position of the first occurrence of `sep` in `s`,
`none` for Go's `-1`. -/
def Index (s sep : Bytes) : Option Nat :=
  if sep.isPrefixOf s then some 0
  else match s with
    | [] => none
    | _ :: t => (Index t sep).map (· + 1)

/-- `strings.Contains`: `Index(s, substr) >= 0`. -/
def Contains (s substr : Bytes) : Bool := (Index s substr).isSome

/-- `bytes.Equal`. -/
def Equal (a b : Bytes) : Bool := decide (a = b)

/-- The loop of `bytes.Count` / `strings.Count` for a non-empty separator: find the next
occurrence, count it, continue behind it.  Every round removes at least one byte, so
`fuel = len(s)` rounds are enough. -/
def countLoop (sep : Bytes) : Nat → Bytes → Nat
  | 0, _ => 0
  | fuel + 1, s =>
    match Index s sep with
    | none => 0
    | some i => countLoop sep fuel (s.drop (i + sep.length)) + 1

/-- `bytes.Count` / `strings.Count`: number of non-overlapping occurrences of the
(non-empty) separator.  That the fuel is enough is `countLoop_fuel`. -/
def Count (s sep : Bytes) : Nat := countLoop sep s.length s

/-- The loop of `genSplit`: `for i < n { m := Index(s, sep); if m < 0 { break };
a[i] = s[:m]; s = s[m+len(sep):]; i++ }; a[i] = s`. -/
def genSplit (sep : Bytes) : Nat → Bytes → List Bytes
  | 0, s => [s]
  | n + 1, s =>
    match Index s sep with
    | none => [s]
    | some m => s.take m :: genSplit sep n (s.drop (m + sep.length))

/-- `bytes.Split(s, sep)` / `strings.Split(s, sep)` for a non-empty `sep`:
`genSplit(s, sep, 0, -1)`, whose round bound is `Count(s, sep)`. -/
def Split (s sep : Bytes) : List Bytes := genSplit sep (Count s sep) s

/-! ## Go standard library: `encoding/json` on a struct of strings -/

/-- Go `unicode/utf8.RuneError`. -/
def RuneError : Nat := 0xFFFD

/-- `utf8.DecodeRuneInString`: the rune at the head of `p` and its width in bytes;
`(RuneError, 1)` for an invalid or truncated encoding. -/
def DecodeRune (p : Bytes) : Nat × Nat :=
  match p with
  | [] => (RuneError, 0)
  | p0 :: rest =>
    let c := p0.toNat
    if c < 0x80 then (c, 1)
    else if c < 0xC2 ∨ 0xF4 < c then (RuneError, 1)
    else
      let sz := if c < 0xE0 then 2 else if c < 0xF0 then 3 else 4
      let lo := if c = 0xE0 then 0xA0 else if c = 0xF0 then 0x90 else 0x80
      let hi := if c = 0xED then 0x9F else if c = 0xF4 then 0x8F else 0xBF
      if rest.length + 1 < sz then (RuneError, 1)
      else
        let b1 := (rest.getD 0 0).toNat
        let b2 := (rest.getD 1 0).toNat
        let b3 := (rest.getD 2 0).toNat
        if b1 < lo ∨ hi < b1 then (RuneError, 1)
        else if sz ≤ 2 then ((c % 32) * 64 + b1 % 64, 2)
        else if b2 < 0x80 ∨ 0xBF < b2 then (RuneError, 1)
        else if sz ≤ 3 then ((c % 16) * 4096 + (b1 % 64) * 64 + b2 % 64, 3)
        else if b3 < 0x80 ∨ 0xBF < b3 then (RuneError, 1)
        else ((c % 8) * 262144 + (b1 % 64) * 4096 + (b2 % 64) * 64 + b3 % 64, 4)

/-- The table `hex = "0123456789abcdef"` of `encoding/json`. -/
def hex (n : Nat) : UInt8 := (ascii "0123456789abcdef").getD n 0

/-- The table `htmlSafeSet` of `encoding/json`: the ASCII bytes written unescaped. -/
def htmlSafeSet (b : UInt8) : Bool :=
  decide (0x20 ≤ b.toNat ∧ b.toNat < 0x80 ∧ b ≠ 0x22 ∧ b ≠ 0x5C ∧ b ≠ 0x3C ∧ b ≠ 0x3E
    ∧ b ≠ 0x26)

/-- The escape written for an ASCII byte outside `htmlSafeSet`: a backslash followed by
the byte itself (quote, backslash), by `n`, `r`, `t`, or by `u00` and two hex digits. -/
def escapeByte (b : UInt8) : Bytes :=
  0x5C ::
    (if b = 0x5C ∨ b = 0x22 then [b]
     else if b = 0x0A then ascii "n"
     else if b = 0x0D then ascii "r"
     else if b = 0x09 then ascii "t"
     else ascii "u00" ++ [hex (b.toNat / 16), hex (b.toNat % 16)])

/-- The loop of `encodeState.string(s, escapeHTML = true)`: the bytes written between
the two quotes.  Every round consumes at least one byte. -/
def stringLoop : Nat → Bytes → Bytes
  | 0, _ => []
  | _, [] => []
  | fuel + 1, b :: rest =>
    if b.toNat < 0x80 then
      (if htmlSafeSet b then [b] else escapeByte b) ++ stringLoop fuel rest
    else
      let (c, size) := DecodeRune (b :: rest)
      if c = RuneError ∧ size = 1 then
        (0x5C :: ascii "ufffd") ++ stringLoop fuel rest
      else if c = 0x2028 ∨ c = 0x2029 then
        (0x5C :: ascii "u202") ++ [hex (c % 16)] ++ stringLoop fuel ((b :: rest).drop size)
      else (b :: rest).take size ++ stringLoop fuel ((b :: rest).drop size)

/-- `encodeState.string`: a Go string as a JSON string literal (the encoder of the Go
releases up to 1.21; later ones write `\b` and `\f` for the bytes 8 and 12).  That the
fuel is enough is `stringLoop_fuel`. -/
def jsonString (s : Bytes) : Bytes := 0x22 :: stringLoop s.length s ++ [0x22]

/-- The struct `Patient` of `kv.go`, with JSON field names `name`, `age`, `sick`. -/
structure Patient where
  Name : Bytes
  Age : Bytes
  Sick : Bytes
  deriving DecidableEq, Repr

/-- `json.Marshal(patient)`: the struct's fields in declaration order.  It cannot fail
on a struct of strings. -/
def Marshal (p : Patient) : Bytes :=
  ascii "\x7b\"name\":" ++ jsonString p.Name ++ ascii ",\"age\":" ++ jsonString p.Age
    ++ ascii ",\"sick\":" ++ jsonString p.Sick ++ ascii "\x7d"

/-! ## The storage engine (badger) -/

/-- The error values of badger that the program can meet.  `ErrFault` stands for any
other failure of the engine (I/O, corruption). -/
inductive BadgerErr where
  | ErrKeyNotFound
  | ErrEmptyKey
  | ErrInvalidKey
  | ErrKeyTooLarge
  | ErrDiscardedTxn
  | ErrTxnTooBig
  | ErrFault
  deriving DecidableEq, Repr

/-- A Go `panic`. -/
inductive Panic where
  /-- The code calls `panic(err)` on a storage error. -/
  | storage (e : BadgerErr)
  /-- A method is called through the nil `currentBatch`. -/
  | nilDereference
  /-- A slice is indexed out of range. -/
  | indexOutOfRange
  /-- The engine's `Commit` pre-check on a transaction that is already discarded. -/
  | commitDiscarded
  deriving DecidableEq, Repr

deriving instance DecidableEq for Except

/-- A `*badger.Item`; `Value` is what `item.Value(fn)` hands to `fn`, or its error. -/
structure Item where
  Value : Except BadgerErr Bytes
  deriving DecidableEq

/-- A read-only transaction as the `db.View` closures use it: `txn.Get`. -/
abbrev ReadTxn := Bytes → Except BadgerErr Item

/-- The committed store: the key/value pairs of the database, at most one per key as
long as it is written through `put`. -/
abbrev DB := List (Bytes × Bytes)

/-- Lookup of a key in the committed store. -/
def DB.find : DB → Bytes → Option Bytes
  | [], _ => none
  | (k, v) :: rest, key => if k = key then some v else DB.find rest key

/-- Removal of a key. -/
def DB.erase : DB → Bytes → DB
  | [], _ => []
  | (k, v) :: rest, key => if k = key then DB.erase rest key else (k, v) :: DB.erase rest key

/-- Overwriting write of one key. -/
def DB.put (db : DB) (key value : Bytes) : DB := (key, value) :: db.erase key

/-- `txn.Get(key)` in a read-only transaction on a healthy engine: `ErrEmptyKey` for the
empty key, `ErrKeyNotFound` for an absent one, else the item. -/
def DB.Get (db : DB) : ReadTxn := fun key =>
  if key = [] then .error .ErrEmptyKey
  else match db.find key with
    | none => .error .ErrKeyNotFound
    | some v => .ok ⟨.ok v⟩

/-- An update transaction (`db.NewTransaction(true)`): the writes buffered so far, oldest
first, and whether the transaction has been committed or discarded. -/
structure Txn where
  writes : List (Bytes × Bytes)
  discarded : Bool
  deriving DecidableEq, Repr

/-- The reserved key prefix of the engine. -/
def badgerPrefix : Bytes := ascii "!badger!"

/-- The largest key the engine accepts, in bytes. -/
def maxKeySize : Nat := 65000

/-- The option `ValueThreshold` of `badger.DefaultOptions`: values shorter than this are
kept with the key. -/
def ValueThreshold : Nat := 32

/-- The limit `maxBatchSize` of the engine: 15% of `MaxTableSize`, 64 MiB in
`badger.DefaultOptions`. -/
def maxBatchSize : Nat := 10066329

/-- The limit `maxBatchCount` of the engine: `maxBatchSize` divided by the size of a
skiplist node, 96 bytes. -/
def maxBatchCount : Nat := 104857

/-- `Entry.estimateSize`: key, value and two meta bytes, or key, value pointer (12 bytes)
and two meta bytes for a value of `ValueThreshold` bytes or more. -/
def estimateSize (key value : Bytes) : Nat :=
  if value.length < ValueThreshold then key.length + value.length + 2
  else key.length + 12 + 2

/-- The field `txn.count`: it starts at 1 in `NewTransaction` and `checkSize` adds 1 for
every buffered write. -/
def Txn.count (txn : Txn) : Nat := 1 + txn.writes.length

/-- The field `txn.size`: it starts at the length of the key `!badger!txn` plus 10 in
`NewTransaction`, and `checkSize` adds the estimated size of every buffered write plus
10. -/
def Txn.size (txn : Txn) : Nat :=
  21 + (txn.writes.map (fun e => estimateSize e.1 e.2 + 10)).sum

/-- `txn.Set(key, value)`, that is `txn.modify`: the argument checks of the engine, then
`txn.checkSize`, which refuses the write with `ErrTxnTooBig` when the count or the size
of the batch would reach its limit, then the write is buffered. -/
def Txn.Set (txn : Txn) (key value : Bytes) : Except BadgerErr Txn :=
  if txn.discarded then .error .ErrDiscardedTxn
  else if key = [] then .error .ErrEmptyKey
  else if badgerPrefix.isPrefixOf key then .error .ErrInvalidKey
  else if maxKeySize < key.length then .error .ErrKeyTooLarge
  else if maxBatchCount ≤ txn.count + 1 ∨
      maxBatchSize ≤ txn.size + (estimateSize key value + 10) then .error .ErrTxnTooBig
  else .ok { txn with writes := txn.writes ++ [(key, value)] }

/-- The buffered writes applied to the store in the order they were staged. -/
def applyWrites (db : DB) (writes : List (Bytes × Bytes)) : DB :=
  writes.foldl (fun d e => d.put e.1 e.2) db

/-! ## The application -/

/-- The struct `KVStoreApplication`: the database and the pointer `currentBatch`, nil
until the first `BeginBlock`. -/
structure KVStoreApplication where
  db : DB
  currentBatch : Option Txn
  deriving DecidableEq, Repr

/-- `NewKVStoreApplication(db)`. -/
def NewKVStoreApplication (db : DB) : KVStoreApplication := { db := db, currentBatch := none }

structure ResponseDeliverTx where
  Code : Nat
  deriving DecidableEq, Repr

structure ResponseCheckTx where
  Code : Nat
  GasWanted : Nat
  deriving DecidableEq, Repr

structure ResponseCommit where
  Data : Bytes
  deriving DecidableEq, Repr

structure ResponseQuery where
  Code : Nat
  Log : String
  Key : Bytes
  Value : Bytes
  deriving DecidableEq, Repr

/-- The `=` separator of the transaction format. -/
def eqSep : Bytes := ascii "="

/-- The closure `isValid` passes to `db.View`: the value of `code` after the closure and
the error the closure returns (`none` for nil). -/
def isValidView (txn : ReadTxn) (key value : Bytes) : Nat × Option BadgerErr :=
  match txn key with
  | .error e => if e ≠ .ErrKeyNotFound then (0, some e) else (0, none)
  | .ok item =>
    match item.Value with
    | .error e => (0, some e)
    | .ok val => if Equal val value then (2, none) else (0, none)

/-- `isValid` over an arbitrary reader. -/
def isValidWith (txn : ReadTxn) (tx : Bytes) : Except Panic Nat :=
  let parts := Split tx eqSep
  if parts.length ≠ 2 then .ok 1
  else
    match parts[0]?, parts[1]? with
    | some key, some value =>
      match isValidView txn key value with
      | (_, some e) => .error (.storage e)
      | (code, none) => .ok code
    | _, _ => .error .indexOutOfRange

/-- `(app *KVStoreApplication) isValid(tx)`. -/
def KVStoreApplication.isValid (app : KVStoreApplication) (tx : Bytes) : Except Panic Nat :=
  isValidWith app.db.Get tx

/-- `(app *KVStoreApplication) CheckTx(req)`, `tx = req.Tx`. -/
def KVStoreApplication.CheckTx (app : KVStoreApplication) (tx : Bytes) :
    Except Panic (KVStoreApplication × ResponseCheckTx) :=
  match app.isValid tx with
  | .error p => .error p
  | .ok code => .ok (app, { Code := code, GasWanted := 1 })

/-- `(app *KVStoreApplication) DeliverTx(req)`, `tx = req.Tx`. -/
def KVStoreApplication.DeliverTx (app : KVStoreApplication) (tx : Bytes) :
    Except Panic (KVStoreApplication × ResponseDeliverTx) :=
  match app.isValid tx with
  | .error p => .error p
  | .ok code =>
    if code ≠ 0 then .ok (app, { Code := code })
    else
      let parts := Split tx eqSep
      match parts[0]?, parts[1]? with
      | some key, some value =>
        match app.currentBatch with
        | none => .error .nilDereference
        | some batch =>
          match batch.Set key value with
          | .error e => .error (.storage e)
          | .ok batch1 => .ok ({ app with currentBatch := some batch1 }, { Code := 0 })
      | _, _ => .error .indexOutOfRange

/-- `(app *KVStoreApplication) Commit()`: `app.currentBatch.Commit()`, whose result is
dropped.  The engine's commit (badger 1.6, the version with the import path and the
argument-free `Commit` of `kv.go`) first checks that the transaction is not discarded and
panics otherwise, then applies the buffered writes and discards the transaction.  With no
read in the transaction there is no conflict to detect. -/
def KVStoreApplication.Commit (app : KVStoreApplication) :
    Except Panic (KVStoreApplication × ResponseCommit) :=
  match app.currentBatch with
  | none => .error .nilDereference
  | some batch =>
    if batch.discarded then .error .commitDiscarded
    else .ok ({ db := applyWrites app.db batch.writes,
                currentBatch := some { batch with discarded := true } }, { Data := [] })

/-- `(app *KVStoreApplication) BeginBlock(req)`: a fresh update transaction replaces
`currentBatch`. -/
def KVStoreApplication.BeginBlock (app : KVStoreApplication) : KVStoreApplication :=
  { app with currentBatch := some { writes := [], discarded := false } }

/-- `EndBlock`, `Info`, `SetOption`, `InitChain`: value receivers returning an empty
response. -/
def KVStoreApplication.EndBlock (app : KVStoreApplication) : KVStoreApplication := app

/-- See `EndBlock`. -/
def KVStoreApplication.Info (app : KVStoreApplication) : KVStoreApplication := app

/-- See `EndBlock`. -/
def KVStoreApplication.SetOption (app : KVStoreApplication) : KVStoreApplication := app

/-- See `EndBlock`. -/
def KVStoreApplication.InitChain (app : KVStoreApplication) : KVStoreApplication := app

/-- The marker of the composite query. -/
def searchMarker : Bytes := ascii "patient_search_"

/-- Go's `err` of a `(item, err)` pair, `none` for nil. -/
def errOf (r : Except BadgerErr Item) : Option BadgerErr :=
  match r with
  | .error e => some e
  | .ok _ => none

/-- The test `err != nil && err != badger.ErrKeyNotFound`. -/
def isFault (r : Except BadgerErr Item) : Bool :=
  match r with
  | .error e => decide (e ≠ .ErrKeyNotFound)
  | .ok _ => false

/-- The effect of `item.Value(func(val) { x = string(val) })` on `x`, which starts
empty; the call's error is dropped. -/
def valueOrEmpty (r : Except BadgerErr Item) : Bytes :=
  match r with
  | .ok item =>
    match item.Value with
    | .ok val => val
    | .error _ => []
  | .error _ => []

/-- The closure `Query` passes to `db.View`: the response after the closure and the error
the closure returns. -/
def QueryView (txn : ReadTxn) (data : Bytes) (resQuery : ResponseQuery) :
    Except Panic (ResponseQuery × Option BadgerErr) :=
  if Contains data searchMarker then
    match (Split data searchMarker)[1]? with
    | none => .error .indexOutOfRange
    | some id =>
      let a := txn (ascii "patient_name_" ++ id)
      if isFault a then .ok ({ resQuery with Log := "does not exist" }, errOf a)
      else
        let b := txn (ascii "patient_age_" ++ id)
        if isFault b then .ok ({ resQuery with Log := "does not exist" }, errOf b)
        else
          let c := txn (ascii "patient_sick_" ++ id)
          if isFault b then .ok ({ resQuery with Log := "does not exist" }, errOf b)
          else if errOf a ≠ none ∨ errOf b ≠ none ∨ errOf c ≠ none then
            .ok ({ resQuery with Log := "does not exist" }, errOf a)
          else
            let patient : Patient :=
              { Name := valueOrEmpty a, Age := valueOrEmpty b, Sick := valueOrEmpty c }
            .ok ({ resQuery with Log := "exists", Value := Marshal patient }, none)
  else
    match txn data with
    | .error e =>
      if e ≠ .ErrKeyNotFound then .ok (resQuery, some e)
      else .ok ({ resQuery with Log := "does not exist" }, none)
    | .ok item =>
      match item.Value with
      | .error e => .ok (resQuery, some e)
      | .ok val => .ok ({ resQuery with Log := "exists", Value := val }, none)

/-- `Query` over an arbitrary reader: `resQuery.Key = reqQuery.Data`, the closure, and an
error of the closure is only printed. -/
def QueryWith (txn : ReadTxn) (data : Bytes) : Except Panic ResponseQuery :=
  match QueryView txn data { Code := 0, Log := "", Key := data, Value := [] } with
  | .error p => .error p
  | .ok (resQuery, _) => .ok resQuery

/-- `(app *KVStoreApplication) Query(reqQuery)`, `data = reqQuery.Data`. -/
def KVStoreApplication.Query (app : KVStoreApplication) (data : Bytes) :
    Except Panic ResponseQuery :=
  QueryWith app.db.Get data


/-! ## Sequences of calls -/

/-- A call of the consensus engine that can change the application state. -/
inductive Call where
  | BeginBlock
  | DeliverTx (tx : Bytes)
  | Commit
  deriving DecidableEq, Repr

/-- The state after one call, or the panic the call ends in. -/
def KVStoreApplication.call (app : KVStoreApplication) : Call → Except Panic KVStoreApplication
  | .BeginBlock => .ok app.BeginBlock
  | .DeliverTx tx =>
    match app.DeliverTx tx with
    | .error p => .error p
    | .ok (app1, _) => .ok app1
  | .Commit =>
    match app.Commit with
    | .error p => .error p
    | .ok (app1, _) => .ok app1

/-- The state after a sequence of calls, or the first panic. -/
def KVStoreApplication.calls (app : KVStoreApplication) : List Call → Except Panic KVStoreApplication
  | [] => .ok app
  | c :: cs =>
    match app.call c with
    | .error p => .error p
    | .ok app1 => app1.calls cs

/-- The key of a transaction: the first part when the split on `=` has exactly two. -/
def txKey (tx : Bytes) : Option Bytes :=
  match Split tx eqSep with
  | [key, _] => some key
  | _ => none

/-- The keys of the transactions handed to `DeliverTx` in a sequence of calls. -/
def deliveredKeys : List Call → List Bytes
  | [] => []
  | .DeliverTx tx :: cs =>
    match txKey tx with
    | some key => key :: deliveredKeys cs
    | none => deliveredKeys cs
  | _ :: cs => deliveredKeys cs

/-- The response of `Query(data)` in the state a sequence of calls leads to. -/
def queryAfter (app : KVStoreApplication) (cs : List Call) (data : Bytes) :
    Except Panic ResponseQuery :=
  match app.calls cs with
  | .error p => .error p
  | .ok app1 => app1.Query data

/-! ## Notions used to state the claims -/

/-- The writes a block stages for the transactions delivered to it: those that
validation against the committed store accepts, split into key and value, in delivery
order. -/
def acceptedWrites (app : KVStoreApplication) : List Bytes → List (Bytes × Bytes)
  | [] => []
  | tx :: txs =>
    match app.isValid tx, Split tx eqSep with
    | .ok 0, [k, v] => (k, v) :: acceptedWrites app txs
    | _, _ => acceptedWrites app txs

/-- The value of the last write to `key` in a sequence of writes. -/
def lastWrite : List (Bytes × Bytes) → Bytes → Option Bytes
  | [], _ => none
  | (k, v) :: ws, key =>
    match lastWrite ws key with
    | some w => some w
    | none => if k = key then some v else none

/-- The positions at which `sep` occurs in `s`, in increasing order. -/
def occurrences (s sep : Bytes) : List Nat :=
  (List.range (s.length + 1)).filter (fun i => sep.isPrefixOf (s.drop i))

/-! ## Lemmas on `Index`, `Count` and `Split` -/

theorem eqSep_eq : eqSep = [0x3D] := by decide

theorem Index_nil_single (c : UInt8) : Index [] [c] = none := by
  simp [Index, List.isPrefixOf]

theorem Index_cons_single (c a : UInt8) (t : Bytes) :
    Index (a :: t) [c] = if a = c then some 0 else (Index t [c]).map (· + 1) := by
  rw [Index]
  by_cases h : a = c
  · simp [List.isPrefixOf, h]
  · have h2 : ¬ c = a := fun e => h e.symm
    simp [List.isPrefixOf, h, h2]

theorem Index_single_none {c : UInt8} {s : Bytes} (h : c ∉ s) : Index s [c] = none := by
  induction s with
  | nil => exact Index_nil_single c
  | cons a t ih =>
    have h1 : a ≠ c := fun e => h (by simp [e])
    have h2 : c ∉ t := fun e => h (List.mem_cons_of_mem _ e)
    rw [Index_cons_single, if_neg h1, ih h2]; rfl

theorem Index_single_append {c : UInt8} {k : Bytes} (v : Bytes) (h : c ∉ k) :
    Index (k ++ c :: v) [c] = some k.length := by
  induction k with
  | nil => simp [Index_cons_single]
  | cons a t ih =>
    have h1 : a ≠ c := fun e => h (by simp [e])
    have h2 : c ∉ t := fun e => h (List.mem_cons_of_mem _ e)
    rw [List.cons_append, Index_cons_single, if_neg h1, ih h2]; rfl

/-- What a hit of `Index` for a one-byte separator means for the count. -/
theorem Index_single_some {c : UInt8} {s : Bytes} {i : Nat} (h : Index s [c] = some i) :
    i < s.length ∧ s.count c = (s.drop (i + 1)).count c + 1 := by
  induction s generalizing i with
  | nil => rw [Index_nil_single] at h; cases h
  | cons a t ih =>
    rw [Index_cons_single] at h
    by_cases hac : a = c
    · rw [if_pos hac] at h
      cases h
      subst hac
      simp
    · rw [if_neg hac] at h
      cases hi : Index t [c] with
      | none => rw [hi] at h; cases h
      | some j =>
        rw [hi] at h
        cases h
        obtain ⟨h1, h2⟩ := ih hi
        refine ⟨by simpa using h1, ?_⟩
        rw [List.count_cons_of_ne (fun e => hac e.symm)]
        simpa using h2

theorem Index_single_none_count {c : UInt8} {s : Bytes} (h : Index s [c] = none) :
    s.count c = 0 := by
  induction s with
  | nil => rfl
  | cons a t ih =>
    rw [Index_cons_single] at h
    by_cases hac : a = c
    · rw [if_pos hac] at h; cases h
    · rw [if_neg hac] at h
      cases hi : Index t [c] with
      | none => rw [List.count_cons_of_ne (fun e => hac e.symm)]; exact ih hi
      | some j => rw [hi] at h; cases h

theorem countLoop_single (c : UInt8) (fuel : Nat) (s : Bytes) (h : s.length ≤ fuel) :
    countLoop [c] fuel s = s.count c := by
  induction fuel generalizing s with
  | zero =>
    have : s = [] := List.length_eq_zero.mp (Nat.le_zero.mp h)
    subst this; rfl
  | succ n ih =>
    rw [countLoop]
    cases hi : Index s [c] with
    | none => simp [Index_single_none_count hi]
    | some i =>
      obtain ⟨h1, h2⟩ := Index_single_some hi
      have hlen : (s.drop (i + 1)).length ≤ n := by
        rw [List.length_drop]; omega
      simp only [List.length_singleton]
      rw [ih _ hlen, h2]

theorem Count_single (c : UInt8) (s : Bytes) : Count s [c] = s.count c :=
  countLoop_single c s.length s (Nat.le_refl _)

theorem length_genSplit_single (c : UInt8) (n : Nat) (s : Bytes) :
    (genSplit [c] n s).length = min n (s.count c) + 1 := by
  induction n generalizing s with
  | zero => simp [genSplit]
  | succ n ih =>
    rw [genSplit]
    simp only [List.length_singleton]
    cases hi : Index s [c] with
    | none => simp [Index_single_none_count hi]
    | some i =>
      obtain ⟨_, h2⟩ := Index_single_some hi
      simp only [List.length_singleton, List.length_cons]
      rw [ih, h2]
      omega

/-- `bytes.Split` on a one-byte separator yields one part more than there are
separators. -/
theorem length_Split_single (c : UInt8) (s : Bytes) :
    (Split s [c]).length = s.count c + 1 := by
  rw [Split, length_genSplit_single, Count_single]; simp

/-- A transaction `k=v` whose parts hold no separator splits into `k` and `v`. -/
theorem Split_single_pair {c : UInt8} {k v : Bytes} (hk : c ∉ k) (hv : c ∉ v) :
    Split (k ++ c :: v) [c] = [k, v] := by
  have hc : Count (k ++ c :: v) [c] = 1 := by
    rw [Count_single]
    simp [List.count_eq_zero_of_not_mem hk, List.count_eq_zero_of_not_mem hv]
  rw [Split, hc, genSplit, Index_single_append v hk]
  simp [genSplit]


theorem Index_of_isPrefixOf {s sep : Bytes} (h : sep.isPrefixOf s = true) :
    Index s sep = some 0 := by
  rw [Index.eq_def, if_pos h]

/-- `Index` finds nothing exactly when the separator is not a contiguous part of the
string. -/
theorem Index_eq_none_iff (s sep : Bytes) : Index s sep = none ↔ ¬ sep <:+: s := by
  induction s with
  | nil =>
    rw [Index]
    by_cases h : sep.isPrefixOf [] = true
    · have h1 : sep <+: [] := List.isPrefixOf_iff_prefix.mp h
      simp [h, h1.isInfix]
    · have h1 : ¬ sep <+: [] := fun e => h (List.isPrefixOf_iff_prefix.mpr e)
      simp only [h]
      simp only [List.infix_nil, List.prefix_nil] at *
      simp [h1]
  | cons a t ih =>
    rw [Index]
    by_cases h : sep.isPrefixOf (a :: t) = true
    · have h1 : sep <+: a :: t := List.isPrefixOf_iff_prefix.mp h
      simp [h, h1.isInfix]
    · have h1 : ¬ sep <+: a :: t := fun e => h (List.isPrefixOf_iff_prefix.mpr e)
      simp only [h, List.infix_cons_iff, h1, false_or]
      simp [ih]

/-- `strings.Contains` decides whether the separator is a contiguous part of the
string. -/
theorem Contains_iff (s sep : Bytes) : Contains s sep = true ↔ sep <:+: s := by
  rw [Contains, Option.isSome_iff_ne_none, Ne, Index_eq_none_iff, not_not]

theorem Contains_eq_false_iff (s sep : Bytes) : Contains s sep = false ↔ ¬ sep <:+: s := by
  rw [← Contains_iff]; simp

/-- A string that starts with the separator and holds it nowhere behind splits into the
empty string and the rest. -/
theorem Split_leading_sep {sep rest : Bytes} (hrest : Contains rest sep = false) :
    Split (sep ++ rest) sep = [[], rest] := by
  have hp : sep.isPrefixOf (sep ++ rest) = true :=
    List.isPrefixOf_iff_prefix.mpr (List.prefix_append sep rest)
  have hi : Index rest sep = none := by
    simpa [Contains] using hrest
  have hc : Count (sep ++ rest) sep = 1 := by
    rw [Count]
    cases hl : (sep ++ rest).length with
    | zero =>
      have h0 : sep ++ rest = [] := List.length_eq_zero.mp hl
      have h1 : rest = [] := (List.append_eq_nil.mp h0).2
      have h2 : sep = [] := (List.append_eq_nil.mp h0).1
      subst h1; subst h2
      simp [Index, List.isPrefixOf] at hi
    | succ n =>
      rw [countLoop, Index_of_isPrefixOf hp]
      simp only [Nat.zero_add, List.drop_left]
      cases n with
      | zero => rfl
      | succ m => rw [countLoop, hi]
  rw [Split, hc, genSplit, Index_of_isPrefixOf hp]
  simp [genSplit]

/-! ## Lemmas on the store -/

theorem DB.find_erase_ne (db : DB) (key k : Bytes) (h : k ≠ key) :
    DB.find (db.erase key) k = DB.find db k := by
  induction db with
  | nil => rfl
  | cons e rest ih =>
    obtain ⟨a, b⟩ := e
    by_cases ha : a = key
    · subst ha
      have : ¬ a = k := fun e => h e.symm
      simp [DB.erase, DB.find, this, ih]
    · by_cases hk : a = k
      · subst hk
        simp [DB.erase, DB.find, ha]
      · simp [DB.erase, DB.find, ha, hk, ih]

/-- Reading after an overwrite: the written key holds the new value, every other key
is unchanged. -/
theorem DB.find_put (db : DB) (key value k : Bytes) :
    (db.put key value).find k = if k = key then some value else db.find k := by
  by_cases h : k = key
  · subst h; simp [DB.put, DB.find]
  · have h2 : ¬ key = k := fun e => h e.symm
    simp [DB.put, DB.find, h, h2, DB.find_erase_ne db key k h]

theorem applyWrites_append (db : DB) (ws : List (Bytes × Bytes)) (k v : Bytes) :
    applyWrites db (ws ++ [(k, v)]) = (applyWrites db ws).put k v := by
  simp [applyWrites, List.foldl_append]

theorem find_applyWrites_last (db : DB) (ws : List (Bytes × Bytes)) (k v : Bytes) :
    (applyWrites db (ws ++ [(k, v)])).find k = some v := by
  rw [applyWrites_append, DB.find_put, if_pos rfl]

/-! ## Lemmas on the operations -/

/-- Validation of a transaction that splits into a non-empty key and a value. -/
theorem isValid_of_Split (app : KVStoreApplication) {tx k v : Bytes}
    (hs : Split tx eqSep = [k, v]) (hk : k ≠ []) :
    app.isValid tx = .ok (if app.db.find k = some v then 2 else 0) := by
  unfold KVStoreApplication.isValid isValidWith
  simp only [hs]
  cases hf : app.db.find k with
  | none => simp [isValidView, DB.Get, hk, hf]
  | some w =>
    by_cases hw : w = v
    · simp [isValidView, DB.Get, hk, hf, Equal, hw]
    · simp [isValidView, DB.Get, hk, hf, Equal, hw]

theorem isValid_of_length (app : KVStoreApplication) {tx : Bytes}
    (h : (Split tx eqSep).length ≠ 2) : app.isValid tx = .ok 1 := by
  unfold KVStoreApplication.isValid isValidWith
  simp [h]

theorem Split_tx {k v : Bytes} (hk : (0x3D : UInt8) ∉ k) (hv : (0x3D : UInt8) ∉ v) :
    Split (k ++ eqSep ++ v) eqSep = [k, v] := by
  rw [eqSep_eq, List.append_assoc]
  exact Split_single_pair hk hv


theorem CheckTx_of_isValid (app : KVStoreApplication) {tx : Bytes} {code : Nat}
    (h : app.isValid tx = .ok code) :
    app.CheckTx tx = .ok (app, { Code := code, GasWanted := 1 }) := by
  simp [KVStoreApplication.CheckTx, h]

theorem DeliverTx_of_rejected (app : KVStoreApplication) {tx : Bytes} {code : Nat}
    (h : app.isValid tx = .ok code) (hc : code ≠ 0) :
    app.DeliverTx tx = .ok (app, { Code := code }) := by
  simp [KVStoreApplication.DeliverTx, h, hc]

/-- Delivery of an accepted transaction `k=v`: the write goes to `currentBatch.Set`. -/
theorem DeliverTx_of_accepted (app : KVStoreApplication) {tx k v : Bytes}
    (hs : Split tx eqSep = [k, v]) (h : app.isValid tx = .ok 0) :
    app.DeliverTx tx =
      match app.currentBatch with
      | none => .error .nilDereference
      | some batch =>
        match batch.Set k v with
        | .error e => .error (.storage e)
        | .ok batch1 => .ok ({ app with currentBatch := some batch1 }, { Code := 0 }) := by
  simp [KVStoreApplication.DeliverTx, h, hs]

/-! ## The claims -/

/-- C1: a transaction with no `=` or with at least two is answered with code 1 by
`CheckTx` and by `DeliverTx`, and both calls return the application state they were
given: the committed store and the writes staged in the open batch are unchanged. -/
theorem malformed_tx_code_one (app : KVStoreApplication) (tx : Bytes)
    (h : tx.count 0x3D = 0 ∨ 2 ≤ tx.count 0x3D) :
    app.CheckTx tx = .ok (app, { Code := 1, GasWanted := 1 }) ∧
      app.DeliverTx tx = .ok (app, { Code := 1 }) := by
  have hlen : (Split tx eqSep).length ≠ 2 := by
    rw [eqSep_eq, length_Split_single]; omega
  have hv := isValid_of_length app hlen
  exact ⟨CheckTx_of_isValid app hv, DeliverTx_of_rejected app hv (by decide)⟩

/-- Witness of C1 at `a=b=c`, with `x=y` committed and `p=q` staged. -/
theorem malformed_tx_code_one_witness :
    (KVStoreApplication.mk [(ascii "x", ascii "y")] (some ⟨[(ascii "p", ascii "q")], false⟩)).CheckTx
        (ascii "a=b=c") =
      .ok (⟨[(ascii "x", ascii "y")], some ⟨[(ascii "p", ascii "q")], false⟩⟩,
        { Code := 1, GasWanted := 1 }) ∧
    (KVStoreApplication.mk [(ascii "x", ascii "y")] (some ⟨[(ascii "p", ascii "q")], false⟩)).DeliverTx
        (ascii "a=b=c") =
      .ok (⟨[(ascii "x", ascii "y")], some ⟨[(ascii "p", ascii "q")], false⟩⟩, { Code := 1 }) :=
  malformed_tx_code_one _ (ascii "a=b=c") (by decide)

/-- C2: for a transaction `k=v` with non-empty `k` and `v` free of `=`, `isValid` and
`CheckTx` return 0 when `k` is not in the committed store, 2 when `k` is stored with the
value `v`, and 0 when `k` is stored with another value. -/
theorem isValid_wellformed (app : KVStoreApplication) (k v : Bytes)
    (hk : k ≠ []) (_hv : v ≠ []) (hke : (0x3D : UInt8) ∉ k) (hve : (0x3D : UInt8) ∉ v) :
    (app.db.find k = none →
      app.isValid (k ++ eqSep ++ v) = .ok 0 ∧
        app.CheckTx (k ++ eqSep ++ v) = .ok (app, { Code := 0, GasWanted := 1 })) ∧
    (app.db.find k = some v →
      app.isValid (k ++ eqSep ++ v) = .ok 2 ∧
        app.CheckTx (k ++ eqSep ++ v) = .ok (app, { Code := 2, GasWanted := 1 })) ∧
    (∀ w, app.db.find k = some w → w ≠ v →
      app.isValid (k ++ eqSep ++ v) = .ok 0 ∧
        app.CheckTx (k ++ eqSep ++ v) = .ok (app, { Code := 0, GasWanted := 1 })) := by
  have hv := isValid_of_Split app (Split_tx hke hve) hk
  refine ⟨fun h => ?_, fun h => ?_, fun w h hw => ?_⟩
  · have h0 : app.isValid (k ++ eqSep ++ v) = .ok 0 := by rw [hv, h]; simp
    exact ⟨h0, CheckTx_of_isValid app h0⟩
  · have h2 : app.isValid (k ++ eqSep ++ v) = .ok 2 := by rw [hv, h]; simp
    exact ⟨h2, CheckTx_of_isValid app h2⟩
  · have h0 : app.isValid (k ++ eqSep ++ v) = .ok 0 := by
      rw [hv, h]; simp [hw]
    exact ⟨h0, CheckTx_of_isValid app h0⟩

/-- Witness of C2 at `k=v` on the store holding `k=v`. -/
theorem isValid_wellformed_witness :
    (NewKVStoreApplication [(ascii "k", ascii "v")]).isValid (ascii "k" ++ eqSep ++ ascii "v")
      = .ok 2 :=
  ((isValid_wellformed (NewKVStoreApplication [(ascii "k", ascii "v")]) (ascii "k") (ascii "v")
    (by decide) (by decide) (by decide) (by decide)).2.1 (by decide)).1


/-! ## The fuel of the loops is enough -/

theorem Index_some_le {s sep : Bytes} {i : Nat} (h : Index s sep = some i) :
    i + sep.length ≤ s.length := by
  induction s generalizing i with
  | nil =>
    rw [Index] at h
    by_cases hp : sep.isPrefixOf [] = true
    · have := (List.isPrefixOf_iff_prefix.mp hp).length_le
      simp only [hp, if_true, Option.some.injEq] at h
      omega
    · simp [hp] at h
  | cons a t ih =>
    rw [Index] at h
    by_cases hp : sep.isPrefixOf (a :: t) = true
    · have := (List.isPrefixOf_iff_prefix.mp hp).length_le
      simp only [hp, if_true, Option.some.injEq] at h
      omega
    · simp only [hp, Bool.false_eq_true, if_false] at h
      cases hi : Index t sep with
      | none => rw [hi] at h; cases h
      | some j =>
        rw [hi] at h
        cases h
        have := ih hi
        simp only [List.length_cons]
        omega

/-- The count loop has finished after `len(s)` rounds: more fuel gives the same count. -/
theorem countLoop_fuel {sep : Bytes} (hsep : sep ≠ []) (f g : Nat) (s : Bytes)
    (hf : s.length ≤ f) (hg : s.length ≤ g) : countLoop sep f s = countLoop sep g s := by
  have hpos : 0 < sep.length := List.length_pos.mpr hsep
  induction f generalizing g s with
  | zero =>
    have hs : s = [] := List.length_eq_zero.mp (Nat.le_zero.mp hf)
    subst hs
    have hnone : Index [] sep = none := by
      cases hi : Index [] sep with
      | none => rfl
      | some i => have := Index_some_le hi; simp only [List.length_nil] at this; omega
    cases g with
    | zero => rfl
    | succ g => simp [countLoop, hnone]
  | succ f ih =>
    cases g with
    | zero =>
      have hs : s = [] := List.length_eq_zero.mp (Nat.le_zero.mp hg)
      subst hs
      have hnone : Index [] sep = none := by
        cases hi : Index [] sep with
        | none => rfl
        | some i => have := Index_some_le hi; simp only [List.length_nil] at this; omega
      simp [countLoop, hnone]
    | succ g =>
      rw [countLoop, countLoop]
      cases hi : Index s sep with
      | none => rfl
      | some i =>
        have hle := Index_some_le hi
        have hd : (s.drop (i + sep.length)).length ≤ f := by
          rw [List.length_drop]; omega
        have hd2 : (s.drop (i + sep.length)).length ≤ g := by
          rw [List.length_drop]; omega
        simp only
        rw [ih g _ hd hd2]

theorem DecodeRune_size_pos (b : UInt8) (rest : Bytes) : 1 ≤ (DecodeRune (b :: rest)).2 := by
  rw [DecodeRune]
  by_cases h1 : b.toNat < 0x80
  · rw [if_pos h1]
  · rw [if_neg h1]
    by_cases h2 : b.toNat < 0xC2 ∨ 0xF4 < b.toNat
    · rw [if_pos h2]
    · rw [if_neg h2]
      dsimp only
      generalize (if b.toNat < 0xE0 then 2 else if b.toNat < 0xF0 then 3 else 4) = sz
      generalize (if b.toNat = 0xE0 then 0xA0 else if b.toNat = 0xF0 then 0x90 else 0x80) = lo
      generalize (if b.toNat = 0xED then 0x9F else if b.toNat = 0xF4 then 0x8F else 0xBF) = hi
      split_ifs <;> first | exact Nat.le_refl 1 | exact Nat.le_of_lt (Nat.lt_of_sub_eq_succ rfl)

/-- The string loop has finished after `len(s)` rounds: more fuel gives the same bytes. -/
theorem stringLoop_fuel (f g : Nat) (s : Bytes) (hf : s.length ≤ f) (hg : s.length ≤ g) :
    stringLoop f s = stringLoop g s := by
  induction f generalizing g s with
  | zero =>
    have hs : s = [] := List.length_eq_zero.mp (Nat.le_zero.mp hf)
    subst hs
    cases g <;> rfl
  | succ f ih =>
    cases s with
    | nil => cases g <;> rfl
    | cons b rest =>
      cases g with
      | zero => simp at hg
      | succ g =>
        have h1 : rest.length ≤ f := by simpa using hf
        have h2 : rest.length ≤ g := by simpa using hg
        have hpos := DecodeRune_size_pos b rest
        have h3 : ((b :: rest).drop (DecodeRune (b :: rest)).2).length ≤ f := by
          rw [List.length_drop]; simp only [List.length_cons]; omega
        have h4 : ((b :: rest).drop (DecodeRune (b :: rest)).2).length ≤ g := by
          rw [List.length_drop]; simp only [List.length_cons]; omega
        rw [stringLoop, stringLoop]
        simp only
        rw [ih g rest h1 h2, ih g _ h3 h4]

theorem DB.Get_of_ne_nil (db : DB) {key : Bytes} (h : key ≠ []) :
    db.Get key =
      match db.find key with
      | none => .error .ErrKeyNotFound
      | some v => .ok ⟨.ok v⟩ := by
  simp [DB.Get, h]

/-- The direct lookup of `Query`, taken for a non-empty request without the marker. -/
theorem Query_direct (app : KVStoreApplication) {data : Bytes}
    (hm : Contains data searchMarker = false) (hne : data ≠ []) :
    app.Query data =
      .ok (match app.db.find data with
        | none => { Code := 0, Log := "does not exist", Key := data, Value := [] }
        | some v => { Code := 0, Log := "exists", Key := data, Value := v }) := by
  unfold KVStoreApplication.Query QueryWith QueryView
  rw [DB.Get_of_ne_nil _ hne]
  cases hf : app.db.find data <;> simp [hm]

/-- The composite lookup of `Query`, taken for a request with the marker: `id` is the
second part of the split. -/
theorem Query_composite (app : KVStoreApplication) {data id : Bytes}
    (hm : Contains data searchMarker = true) (hs : (Split data searchMarker)[1]? = some id) :
    app.Query data =
      .ok (match app.db.find (ascii "patient_name_" ++ id),
          app.db.find (ascii "patient_age_" ++ id),
          app.db.find (ascii "patient_sick_" ++ id) with
        | some n, some a, some s =>
          { Code := 0, Log := "exists", Key := data,
            Value := Marshal { Name := n, Age := a, Sick := s } }
        | _, _, _ => { Code := 0, Log := "does not exist", Key := data, Value := [] }) := by
  have h1 : ascii "patient_name_" ++ id ≠ [] :=
    List.append_ne_nil_of_left_ne_nil (by decide) _
  have h2 : ascii "patient_age_" ++ id ≠ [] :=
    List.append_ne_nil_of_left_ne_nil (by decide) _
  have h3 : ascii "patient_sick_" ++ id ≠ [] :=
    List.append_ne_nil_of_left_ne_nil (by decide) _
  unfold KVStoreApplication.Query QueryWith QueryView
  simp only [hm, hs, if_true]
  rw [DB.Get_of_ne_nil _ h1, DB.Get_of_ne_nil _ h2, DB.Get_of_ne_nil _ h3]
  cases app.db.find (ascii "patient_name_" ++ id) <;>
    cases app.db.find (ascii "patient_age_" ++ id) <;>
    cases app.db.find (ascii "patient_sick_" ++ id) <;>
    simp [isFault, errOf, valueOrEmpty]

/-- A request that is the marker followed by an identifier without the marker takes
the composite lookup with that identifier. -/
theorem Query_search (app : KVStoreApplication) {id : Bytes}
    (hid : Contains id searchMarker = false) :
    app.Query (searchMarker ++ id) =
      .ok (match app.db.find (ascii "patient_name_" ++ id),
          app.db.find (ascii "patient_age_" ++ id),
          app.db.find (ascii "patient_sick_" ++ id) with
        | some n, some a, some s =>
          { Code := 0, Log := "exists", Key := searchMarker ++ id,
            Value := Marshal { Name := n, Age := a, Sick := s } }
        | _, _, _ =>
          { Code := 0, Log := "does not exist", Key := searchMarker ++ id, Value := [] }) := by
  have hm : Contains (searchMarker ++ id) searchMarker = true :=
    (Contains_iff _ _).mpr (List.prefix_append _ _).isInfix
  exact Query_composite app hm (by rw [Split_leading_sep hid]; rfl)

theorem estimateSize_le (key value : Bytes) : estimateSize key value ≤ key.length + 33 := by
  unfold estimateSize ValueThreshold
  split <;> omega

theorem Txn.Set_ok (batch : Txn) {key : Bytes} (value : Bytes) (hd : batch.discarded = false)
    (hk : key ≠ []) (hp : badgerPrefix.isPrefixOf key = false) (hl : key.length ≤ maxKeySize)
    (hcount : batch.count + 1 < maxBatchCount)
    (hsize : batch.size + (estimateSize key value + 10) < maxBatchSize) :
    batch.Set key value = .ok { batch with writes := batch.writes ++ [(key, value)] } := by
  have h1 : ¬ maxBatchCount ≤ batch.count + 1 := Nat.not_le.mpr hcount
  have h2 : ¬ maxBatchSize ≤ batch.size + (estimateSize key value + 10) := Nat.not_le.mpr hsize
  simp [Txn.Set, hd, hk, hp, Nat.not_lt.mpr hl, h1, h2]

/-- A freshly begun batch has room for a write with a key of at most 65000 bytes. -/
theorem Txn.Set_fresh {key : Bytes} (value : Bytes)
    (hk : key ≠ []) (hp : badgerPrefix.isPrefixOf key = false) (hl : key.length ≤ maxKeySize) :
    Txn.Set ⟨[], false⟩ key value = .ok ⟨[(key, value)], false⟩ := by
  have he := estimateSize_le key value
  have hl2 : key.length ≤ 65000 := hl
  exact Txn.Set_ok ⟨[], false⟩ value rfl hk hp hl
    (by simp [Txn.count, maxBatchCount])
    (by simp only [Txn.size, maxBatchSize, List.map_nil, List.sum_nil]; omega)

/-- A batch holding one write with a key of at most 65000 bytes has room for a second
write with such a key. -/
theorem Txn.Set_second {key0 key : Bytes} (value0 value : Bytes)
    (hl0 : key0.length ≤ maxKeySize)
    (hk : key ≠ []) (hp : badgerPrefix.isPrefixOf key = false) (hl : key.length ≤ maxKeySize) :
    Txn.Set ⟨[(key0, value0)], false⟩ key value =
      .ok ⟨[(key0, value0), (key, value)], false⟩ := by
  have he0 := estimateSize_le key0 value0
  have he := estimateSize_le key value
  have hl2 : key.length ≤ 65000 := hl
  have hl3 : key0.length ≤ 65000 := hl0
  exact Txn.Set_ok ⟨[(key0, value0)], false⟩ value rfl hk hp hl
    (by simp [Txn.count, maxBatchCount])
    (by
      simp only [Txn.size, maxBatchSize, List.map_cons, List.map_nil, List.sum_cons,
        List.sum_nil]
      omega)

theorem isValid_BeginBlock (app : KVStoreApplication) (tx : Bytes) :
    app.BeginBlock.isValid tx = app.isValid tx := rfl

/-- C3 (amended): for a well-formed `k=v` whose key is absent from the committed store,
does not contain `patient_search_` and is accepted by the storage engine (no `!badger!`
prefix, at most 65000 bytes), `BeginBlock`, `DeliverTx(k=v)`, `Commit` succeed and
afterwards `Query(k)` returns Log `exists` and Value `v`. -/
theorem deliver_commit_query (app : KVStoreApplication) (k v : Bytes)
    (hk : k ≠ []) (_hv : v ≠ []) (hke : (0x3D : UInt8) ∉ k) (hve : (0x3D : UInt8) ∉ v)
    (habs : app.db.find k = none) (hmark : Contains k searchMarker = false)
    (hpre : badgerPrefix.isPrefixOf k = false) (hlen : k.length ≤ maxKeySize) :
    ∃ app1 app2,
      app.BeginBlock.DeliverTx (k ++ eqSep ++ v) = .ok (app1, { Code := 0 }) ∧
      app1.Commit = .ok (app2, { Data := [] }) ∧
      app2.Query k = .ok { Code := 0, Log := "exists", Key := k, Value := v } := by
  have hs := Split_tx hke hve
  have h0 : app.BeginBlock.isValid (k ++ eqSep ++ v) = .ok 0 := by
    rw [isValid_BeginBlock, isValid_of_Split app hs hk, habs]; simp
  refine ⟨{ db := app.db, currentBatch := some ⟨[(k, v)], false⟩ },
    { db := applyWrites app.db [(k, v)], currentBatch := some ⟨[(k, v)], true⟩ }, ?_, ?_, ?_⟩
  · rw [DeliverTx_of_accepted _ hs h0]
    simp [KVStoreApplication.BeginBlock,
      Txn.Set_fresh v hk hpre hlen]
  · simp [KVStoreApplication.Commit]
  · rw [Query_direct _ hmark hk]
    have : (applyWrites app.db [(k, v)]).find k = some v :=
      find_applyWrites_last app.db [] k v
    simp [this]

/-- Witness of C3 at `a=b` on the empty store. -/
theorem deliver_commit_query_witness :
    ∃ app1 app2,
      (NewKVStoreApplication []).BeginBlock.DeliverTx (ascii "a" ++ eqSep ++ ascii "b") =
        .ok (app1, { Code := 0 }) ∧
      app1.Commit = .ok (app2, { Data := [] }) ∧
      app2.Query (ascii "a") =
        .ok { Code := 0, Log := "exists", Key := ascii "a", Value := ascii "b" } :=
  deliver_commit_query (NewKVStoreApplication []) (ascii "a") (ascii "b")
    (by decide) (by decide) (by decide) (by decide) (by decide) (by decide) (by decide)
    (by decide)

/-- A key longer than the engine's limit is refused by `Set`, and `DeliverTx` panics. -/
theorem DeliverTx_long_key (n : Nat) (hn : maxKeySize < n) :
    (NewKVStoreApplication []).BeginBlock.DeliverTx (List.replicate n 0x6B ++ eqSep ++ ascii "v") =
      .error (.storage .ErrKeyTooLarge) := by
  obtain ⟨m, rfl⟩ : ∃ m, n = m + 1 := ⟨n - 1, by omega⟩
  have hke : (0x3D : UInt8) ∉ List.replicate (m + 1) (0x6B : UInt8) := by
    intro h
    exact absurd (List.mem_replicate.mp h).2 (by decide)
  have hve : (0x3D : UInt8) ∉ ascii "v" := by decide
  have hne : List.replicate (m + 1) (0x6B : UInt8) ≠ [] := by
    rw [List.replicate_succ]; exact List.cons_ne_nil _ _
  have hs := Split_tx hke hve
  have h0 : (NewKVStoreApplication []).BeginBlock.isValid
      (List.replicate (m + 1) 0x6B ++ eqSep ++ ascii "v") = .ok 0 := by
    rw [isValid_of_Split _ hs hne]; rfl
  rw [DeliverTx_of_accepted _ hs h0]
  have hp : badgerPrefix.isPrefixOf (List.replicate (m + 1) (0x6B : UInt8)) = false := by
    rw [List.replicate_succ]
    rfl
  have hl : maxKeySize < (List.replicate (m + 1) (0x6B : UInt8)).length := by
    rw [List.length_replicate]; exact hn
  simp only [KVStoreApplication.BeginBlock, NewKVStoreApplication, Txn.Set, hne, hp, hl]
  simp

/-- C3 fails as stated.  On the empty store `patient_search_7=x` is delivered and
committed, and `Query(patient_search_7)` answers `does not exist`, because the request
takes the composite lookup; and a key the storage engine rejects (the reserved prefix, or
more than 65000 bytes) makes `DeliverTx` panic. -/
theorem deliver_commit_query_counterexample :
    (NewKVStoreApplication []).BeginBlock.DeliverTx (ascii "patient_search_7=x") =
        .ok (⟨[], some ⟨[(ascii "patient_search_7", ascii "x")], false⟩⟩, { Code := 0 }) ∧
      (KVStoreApplication.mk [] (some ⟨[(ascii "patient_search_7", ascii "x")], false⟩)).Commit =
        .ok (⟨[(ascii "patient_search_7", ascii "x")],
          some ⟨[(ascii "patient_search_7", ascii "x")], true⟩⟩, { Data := [] }) ∧
      (KVStoreApplication.mk [(ascii "patient_search_7", ascii "x")]
          (some ⟨[(ascii "patient_search_7", ascii "x")], true⟩)).Query (ascii "patient_search_7") =
        .ok { Code := 0, Log := "does not exist", Key := ascii "patient_search_7", Value := [] } ∧
      (NewKVStoreApplication []).BeginBlock.DeliverTx (ascii "!badger!x=v") =
        .error (.storage .ErrInvalidKey) ∧
      (NewKVStoreApplication []).BeginBlock.DeliverTx
          (List.replicate 65001 0x6B ++ eqSep ++ ascii "v") =
        .error (.storage .ErrKeyTooLarge) :=
  ⟨by decide, by decide, by decide, by decide, DeliverTx_long_key 65001 (by decide)⟩

theorem Txn.Set_inv {batch batch1 : Txn} {key value : Bytes}
    (h : batch.Set key value = .ok batch1) :
    batch.discarded = false ∧ key ≠ [] ∧ badgerPrefix.isPrefixOf key = false ∧
      key.length ≤ maxKeySize ∧
      batch1 = { batch with writes := batch.writes ++ [(key, value)] } := by
  unfold Txn.Set at h
  split at h
  · cases h
  · split at h
    · cases h
    · split at h
      · cases h
      · split at h
        · cases h
        · split at h
          · cases h
          · rename_i h1 h2 h3 h4 h5
            cases h
            exact ⟨by simpa using h1, h2, Bool.eq_false_iff.mpr h3, Nat.not_lt.mp h4, rfl⟩

theorem isValid_inv (app : KVStoreApplication) {tx : Bytes} {code : Nat}
    (h : app.isValid tx = .ok code) :
    (code = 1 ∧ (Split tx eqSep).length ≠ 2) ∨
      ∃ k v, Split tx eqSep = [k, v] ∧ k ≠ [] ∧
        code = if app.db.find k = some v then 2 else 0 := by
  by_cases hl : (Split tx eqSep).length = 2
  · right
    obtain ⟨k, v, hs⟩ := List.length_eq_two.mp hl
    refine ⟨k, v, hs, ?_⟩
    by_cases hk : k = []
    · subst hk
      simp [KVStoreApplication.isValid, isValidWith, hs, isValidView, DB.Get] at h
    · rw [isValid_of_Split app hs hk] at h
      cases h
      exact ⟨hk, rfl⟩
  · left
    rw [isValid_of_length app hl] at h
    cases h
    exact ⟨rfl, hl⟩

/-- What a returning `DeliverTx` did: nothing, with a non-zero code; or it staged the one
write `(k, v)` of a transaction that splits into `k` and `v`, with code 0. -/
theorem DeliverTx_inv (app app1 : KVStoreApplication) (r : ResponseDeliverTx) {tx : Bytes}
    (h : app.DeliverTx tx = .ok (app1, r)) :
    (app1 = app ∧ r.Code ≠ 0 ∧ app.isValid tx = .ok r.Code) ∨
      ∃ k v batch, Split tx eqSep = [k, v] ∧ app.isValid tx = .ok 0 ∧
        app.currentBatch = some batch ∧ batch.discarded = false ∧ k ≠ [] ∧
        badgerPrefix.isPrefixOf k = false ∧ k.length ≤ maxKeySize ∧ r = { Code := 0 } ∧
        app1 = { app with
          currentBatch := some { batch with writes := batch.writes ++ [(k, v)] } } := by
  cases hv : app.isValid tx with
  | error p => simp [KVStoreApplication.DeliverTx, hv] at h
  | ok code =>
    by_cases hc : code = 0
    · subst hc
      right
      rcases isValid_inv app hv with ⟨h1, _⟩ | ⟨k, v, hs, hk, _⟩
      · cases h1
      · rw [DeliverTx_of_accepted app hs hv] at h
        cases hb : app.currentBatch with
        | none => simp [hb] at h
        | some batch =>
          cases hset : batch.Set k v with
          | error e => simp [hb, hset] at h
          | ok batch1 =>
            simp only [hb, hset] at h
            cases h
            obtain ⟨h1, h2, h3, h4, h5⟩ := Txn.Set_inv hset
            subst h5
            exact ⟨k, v, batch, hs, rfl, rfl, h1, h2, h3, h4, rfl, rfl⟩
    · left
      rw [DeliverTx_of_rejected app hv hc] at h
      cases h
      exact ⟨rfl, hc, rfl⟩

/-- `DeliverTx` does not touch the committed store. -/
theorem DeliverTx_db (app app1 : KVStoreApplication) (r : ResponseDeliverTx) {tx : Bytes}
    (h : app.DeliverTx tx = .ok (app1, r)) : app1.db = app.db := by
  rcases DeliverTx_inv app app1 r h with ⟨h1, _⟩ | ⟨k, v, batch, _, _, _, _, _, _, _, _, h1⟩
  · rw [h1]
  · rw [h1]

/-- An accepted delivery followed by `Commit` leaves the delivered value in the committed
store. -/
theorem find_after_deliver_commit (app app1 app2 : KVStoreApplication) (r : ResponseCommit)
    {k v : Bytes} (hke : (0x3D : UInt8) ∉ k) (hve : (0x3D : UInt8) ∉ v)
    (hd : app.DeliverTx (k ++ eqSep ++ v) = .ok (app1, { Code := 0 }))
    (hc : app1.Commit = .ok (app2, r)) :
    app2.db.find k = some v ∧ k ≠ [] ∧ badgerPrefix.isPrefixOf k = false ∧
      k.length ≤ maxKeySize := by
  rcases DeliverTx_inv app app1 _ hd with ⟨_, h1, _⟩ | ⟨k1, v1, batch, hs, _, hb, hdis, hk, hp, hl, _, h1⟩
  · exact absurd rfl h1
  · rw [Split_tx hke hve] at hs
    have hk1 : k1 = k := by simpa using (List.cons.inj hs).1.symm
    have hv1 : v1 = v := by simpa using (List.cons.inj (List.cons.inj hs).2).1.symm
    subst hk1; subst hv1
    subst h1
    simp only [KVStoreApplication.Commit, hdis] at hc
    simp at hc
    rw [← hc.1]
    exact ⟨find_applyWrites_last _ _ _ _, hk, hp, hl⟩

theorem isValid_congr_db {a b : KVStoreApplication} (h : a.db = b.db) (tx : Bytes) :
    a.isValid tx = b.isValid tx := by
  unfold KVStoreApplication.isValid; rw [h]

theorem Query_congr_db {a b : KVStoreApplication} (h : a.db = b.db) (data : Bytes) :
    a.Query data = b.Query data := by
  unfold KVStoreApplication.Query; rw [h]

/-- C4: once a well-formed `k=v` is committed (the committed store holds `v` under `k`,
as it does after an accepted `DeliverTx(k=v)` followed by `Commit`), the same bytes get
code 2 from `CheckTx` and from `DeliverTx` in a newly begun block, and both calls return
the state they were given: committed store and staged writes are unchanged. -/
theorem resubmit_duplicate (app2 : KVStoreApplication) (k v : Bytes)
    (hk : k ≠ []) (_hv : v ≠ []) (hke : (0x3D : UInt8) ∉ k) (hve : (0x3D : UInt8) ∉ v)
    (hcommitted : app2.db.find k = some v ∨
      ∃ (app app1 : KVStoreApplication) (r : ResponseCommit),
        app.DeliverTx (k ++ eqSep ++ v) = .ok (app1, { Code := 0 }) ∧
        app1.Commit = .ok (app2, r)) :
    app2.CheckTx (k ++ eqSep ++ v) = .ok (app2, { Code := 2, GasWanted := 1 }) ∧
      app2.BeginBlock.DeliverTx (k ++ eqSep ++ v) = .ok (app2.BeginBlock, { Code := 2 }) := by
  have hf : app2.db.find k = some v := by
    rcases hcommitted with h | ⟨app, app1, r, hd, hc⟩
    · exact h
    · exact (find_after_deliver_commit app app1 app2 r hke hve hd hc).1
  have h2 : app2.isValid (k ++ eqSep ++ v) = .ok 2 := by
    rw [isValid_of_Split app2 (Split_tx hke hve) hk, hf]; simp
  exact ⟨CheckTx_of_isValid app2 h2,
    DeliverTx_of_rejected app2.BeginBlock (by rw [isValid_BeginBlock]; exact h2) (by decide)⟩

/-- Witness of C4: `k=v` delivered into a fresh block on the empty store and committed. -/
theorem resubmit_duplicate_witness :
    (KVStoreApplication.mk [(ascii "k", ascii "v")] (some ⟨[(ascii "k", ascii "v")], true⟩)).CheckTx
        (ascii "k" ++ eqSep ++ ascii "v") =
      .ok (⟨[(ascii "k", ascii "v")], some ⟨[(ascii "k", ascii "v")], true⟩⟩,
        { Code := 2, GasWanted := 1 }) ∧
    (KVStoreApplication.mk [(ascii "k", ascii "v")]
        (some ⟨[(ascii "k", ascii "v")], true⟩)).BeginBlock.DeliverTx
        (ascii "k" ++ eqSep ++ ascii "v") =
      .ok ((KVStoreApplication.mk [(ascii "k", ascii "v")]
        (some ⟨[(ascii "k", ascii "v")], true⟩)).BeginBlock, { Code := 2 }) :=
  resubmit_duplicate _ (ascii "k") (ascii "v") (by decide) (by decide) (by decide) (by decide)
    (Or.inr ⟨(NewKVStoreApplication []).BeginBlock,
      ⟨[], some ⟨[(ascii "k", ascii "v")], false⟩⟩, ⟨[]⟩, by decide, by decide⟩)

/-- A fresh block holding one accepted write, committed: the three calls succeed and the
written key then holds the written value. -/
theorem fresh_block_commit (app : KVStoreApplication) {tx k v : Bytes}
    (hs : Split tx eqSep = [k, v]) (h0 : app.isValid tx = .ok 0) (hk : k ≠ [])
    (hpre : badgerPrefix.isPrefixOf k = false) (hlen : k.length ≤ maxKeySize) :
    ∃ app1 app2,
      app.BeginBlock.DeliverTx tx = .ok (app1, { Code := 0 }) ∧
      app1.Commit = .ok (app2, { Data := [] }) ∧ app2.db.find k = some v := by
  refine ⟨{ db := app.db, currentBatch := some ⟨[(k, v)], false⟩ },
    { db := applyWrites app.db [(k, v)], currentBatch := some ⟨[(k, v)], true⟩ }, ?_, ?_, ?_⟩
  · rw [DeliverTx_of_accepted _ hs (by rw [isValid_BeginBlock]; exact h0)]
    simp [KVStoreApplication.BeginBlock,
      Txn.Set_fresh v hk hpre hlen]
  · simp [KVStoreApplication.Commit]
  · exact find_applyWrites_last app.db [] k v

/-- C5 (amended): for a key `k` that does not contain `patient_search_`, after `k=v` has
been delivered and committed, `DeliverTx(k=v2)` with `v2 ≠ v` in a new block returns code
0, and after that block's `Commit`, `Query(k)` returns Value `v2`. -/
theorem overwrite_after_commit (app app1 app2 : KVStoreApplication) (r : ResponseCommit)
    (k v v2 : Bytes) (_hv : v ≠ []) (_hv2 : v2 ≠ [])
    (hke : (0x3D : UInt8) ∉ k) (hve : (0x3D : UInt8) ∉ v) (hv2e : (0x3D : UInt8) ∉ v2)
    (hne : v2 ≠ v) (hmark : Contains k searchMarker = false)
    (hd : app.DeliverTx (k ++ eqSep ++ v) = .ok (app1, { Code := 0 }))
    (hc : app1.Commit = .ok (app2, r)) :
    ∃ app3 app4,
      app2.BeginBlock.DeliverTx (k ++ eqSep ++ v2) = .ok (app3, { Code := 0 }) ∧
      app3.Commit = .ok (app4, { Data := [] }) ∧
      app4.Query k = .ok { Code := 0, Log := "exists", Key := k, Value := v2 } := by
  obtain ⟨hf, hk, hp, hl⟩ := find_after_deliver_commit app app1 app2 r hke hve hd hc
  have hs := Split_tx hke hv2e
  have h0 : app2.isValid (k ++ eqSep ++ v2) = .ok 0 := by
    have hvv : ¬ v = v2 := fun e => hne e.symm
    rw [isValid_of_Split app2 hs hk, hf]
    simp [hvv]
  obtain ⟨app3, app4, h3, h4, h5⟩ := fresh_block_commit app2 hs h0 hk hp hl
  refine ⟨app3, app4, h3, h4, ?_⟩
  rw [Query_direct _ hmark hk, h5]

/-- Witness of C5: `k=a` committed from the empty store, then `k=b`. -/
theorem overwrite_after_commit_witness :
    ∃ app3 app4,
      (KVStoreApplication.mk [(ascii "k", ascii "a")]
          (some ⟨[(ascii "k", ascii "a")], true⟩)).BeginBlock.DeliverTx
          (ascii "k" ++ eqSep ++ ascii "b") = .ok (app3, { Code := 0 }) ∧
      app3.Commit = .ok (app4, { Data := [] }) ∧
      app4.Query (ascii "k") =
        .ok { Code := 0, Log := "exists", Key := ascii "k", Value := ascii "b" } :=
  overwrite_after_commit (NewKVStoreApplication []).BeginBlock
    ⟨[], some ⟨[(ascii "k", ascii "a")], false⟩⟩
    ⟨[(ascii "k", ascii "a")], some ⟨[(ascii "k", ascii "a")], true⟩⟩ ⟨[]⟩
    (ascii "k") (ascii "a") (ascii "b") (by decide) (by decide) (by decide) (by decide)
    (by decide) (by decide) (by decide) (by decide) (by decide)

/-- C5 fails as stated for a key with the marker: after `patient_search_7=a` and then
`patient_search_7=b` are delivered and committed in two blocks on the empty store,
`Query(patient_search_7)` answers `does not exist` with an empty Value, not `b`. -/
theorem overwrite_after_commit_counterexample :
    queryAfter (NewKVStoreApplication [])
        [.BeginBlock, .DeliverTx (ascii "patient_search_7=a"), .Commit,
          .BeginBlock, .DeliverTx (ascii "patient_search_7=b"), .Commit]
        (ascii "patient_search_7") =
      .ok { Code := 0, Log := "does not exist", Key := ascii "patient_search_7", Value := [] } ∧
    (NewKVStoreApplication []).calls
        [.BeginBlock, .DeliverTx (ascii "patient_search_7=a"), .Commit,
          .BeginBlock, .DeliverTx (ascii "patient_search_7=b"), .Commit] =
      .ok ⟨[(ascii "patient_search_7", ascii "b")],
        some ⟨[(ascii "patient_search_7", ascii "b")], true⟩⟩ := by
  constructor <;> decide

theorem DB.find_put_ne_none (db : DB) (key value k : Bytes)
    (h : (db.put key value).find k ≠ none) : k = key ∨ db.find k ≠ none := by
  rw [DB.find_put] at h
  by_cases hk : k = key
  · exact Or.inl hk
  · rw [if_neg hk] at h; exact Or.inr h

/-- A key found after the buffered writes were applied was in the store before or is the
key of one of the writes. -/
theorem find_applyWrites_ne_none (db : DB) (ws : List (Bytes × Bytes)) (k : Bytes)
    (h : (applyWrites db ws).find k ≠ none) : db.find k ≠ none ∨ ∃ e ∈ ws, e.1 = k := by
  induction ws generalizing db with
  | nil => exact Or.inl h
  | cons w rest ih =>
    have h1 : applyWrites db (w :: rest) = applyWrites (db.put w.1 w.2) rest := rfl
    rw [h1] at h
    rcases ih _ h with h2 | ⟨e, he, hek⟩
    · rcases DB.find_put_ne_none db w.1 w.2 k h2 with h3 | h3
      · exact Or.inr ⟨w, List.mem_cons_self _ _, h3.symm⟩
      · exact Or.inl h3
    · exact Or.inr ⟨e, List.mem_cons_of_mem _ he, hek⟩

/-- One call keeps every key of the committed store and of the open batch inside a set
that holds the key of the delivered transaction. -/
theorem call_keys (P : Bytes → Prop) (app app1 : KVStoreApplication) (c : Call)
    (hP : ∀ key ∈ deliveredKeys [c], P key)
    (hdb : ∀ key, app.db.find key ≠ none → P key)
    (hb : ∀ b, app.currentBatch = some b → ∀ e ∈ b.writes, P e.1)
    (hc : app.call c = .ok app1) :
    (∀ key, app1.db.find key ≠ none → P key) ∧
      (∀ b, app1.currentBatch = some b → ∀ e ∈ b.writes, P e.1) := by
  cases c with
  | BeginBlock =>
    simp only [KVStoreApplication.call, Except.ok.injEq] at hc
    subst hc
    refine ⟨hdb, fun b hb1 e he => ?_⟩
    simp only [KVStoreApplication.BeginBlock, Option.some.injEq] at hb1
    subst hb1
    simp at he
  | DeliverTx tx =>
    cases hd : app.DeliverTx tx with
    | error p => simp [KVStoreApplication.call, hd] at hc
    | ok res =>
      obtain ⟨a, r⟩ := res
      simp only [KVStoreApplication.call, hd, Except.ok.injEq] at hc
      subst hc
      rcases DeliverTx_inv app a r hd with ⟨h1, _⟩ | ⟨k, v, batch, hs, _, hcb, _, _, _, _, _, h1⟩
      · subst h1; exact ⟨hdb, hb⟩
      · subst h1
        refine ⟨hdb, fun b hb1 e he => ?_⟩
        simp only [Option.some.injEq] at hb1
        subst hb1
        rcases List.mem_append.mp he with he1 | he1
        · exact hb batch hcb e he1
        · have hek : e = (k, v) := by simpa using he1
          subst hek
          apply hP
          simp [deliveredKeys, txKey, hs]
  | Commit =>
    cases hb0 : app.currentBatch with
    | none => simp [KVStoreApplication.call, KVStoreApplication.Commit, hb0] at hc
    | some batch =>
      by_cases hdis : batch.discarded = true
      · simp [KVStoreApplication.call, KVStoreApplication.Commit, hb0, hdis] at hc
      · simp only [KVStoreApplication.call, KVStoreApplication.Commit, hb0, hdis] at hc
        simp only [Bool.false_eq_true, if_false, Except.ok.injEq] at hc
        subst hc
        refine ⟨fun key hkey => ?_, fun b hb1 e he => ?_⟩
        · rcases find_applyWrites_ne_none _ _ _ hkey with h1 | ⟨e, he, hek⟩
          · exact hdb key h1
          · rw [← hek]; exact hb batch hb0 e he
        · simp only [Option.some.injEq] at hb1
          subst hb1
          exact hb batch hb0 e he

theorem deliveredKeys_cons_subset (c : Call) (cs : List Call) (key : Bytes) :
    (key ∈ deliveredKeys [c] → key ∈ deliveredKeys (c :: cs)) ∧
      (key ∈ deliveredKeys cs → key ∈ deliveredKeys (c :: cs)) := by
  cases c with
  | BeginBlock => simp [deliveredKeys]
  | Commit => simp [deliveredKeys]
  | DeliverTx tx =>
    cases h : txKey tx with
    | none => simp [deliveredKeys, h]
    | some k =>
      simp only [deliveredKeys, h, List.mem_cons, List.mem_singleton]
      refine ⟨fun h1 => ?_, fun h1 => Or.inr h1⟩
      rcases h1 with h1 | h1
      · exact Or.inl h1
      · cases h1

/-- Every key of the committed store, and of the open batch, in a state reached from the
empty store is the key of a delivered transaction. -/
theorem calls_keys (cs : List Call) (app app1 : KVStoreApplication)
    (hdb : ∀ key, app.db.find key ≠ none → key ∈ deliveredKeys cs)
    (hb : ∀ b, app.currentBatch = some b → ∀ e ∈ b.writes, e.1 ∈ deliveredKeys cs)
    (hc : app.calls cs = .ok app1) :
    ∀ key, app1.db.find key ≠ none → key ∈ deliveredKeys cs := by
  suffices H : ∀ (P : Bytes → Prop) (cs : List Call) (app : KVStoreApplication),
      (∀ key ∈ deliveredKeys cs, P key) → (∀ key, app.db.find key ≠ none → P key) →
      (∀ b, app.currentBatch = some b → ∀ e ∈ b.writes, P e.1) →
      app.calls cs = .ok app1 → ∀ key, app1.db.find key ≠ none → P key from
    H (fun key => key ∈ deliveredKeys cs) cs app (fun _ h => h) hdb hb hc
  intro P cs
  induction cs with
  | nil =>
    intro app _ hdb _ hc
    simp only [KVStoreApplication.calls, Except.ok.injEq] at hc
    subst hc; exact hdb
  | cons c rest ih =>
    intro app hP hdb hb hc
    cases hcall : app.call c with
    | error p => simp [KVStoreApplication.calls, hcall] at hc
    | ok a =>
      simp only [KVStoreApplication.calls, hcall] at hc
      obtain ⟨h1, h2⟩ := call_keys P app a c
        (fun key hk => hP key ((deliveredKeys_cons_subset c rest key).1 hk)) hdb hb hcall
      exact ih a (fun key hk => hP key ((deliveredKeys_cons_subset c rest key).2 hk)) h1 h2 hc

theorem find_eq_none_of_not_delivered (cs : List Call) (app : KVStoreApplication)
    (hr : (NewKVStoreApplication []).calls cs = .ok app) {key : Bytes}
    (h : key ∉ deliveredKeys cs) : app.db.find key = none := by
  by_contra hne
  exact h (calls_keys cs (NewKVStoreApplication []) app
    (fun key hk => absurd rfl hk) (fun b hb => by cases hb) hr key hne)

/-- C6 (amended): in every state reached from the empty store through `BeginBlock`,
`DeliverTx` and `Commit` calls, `Query` returns Log `does not exist` and an empty Value
for every non-empty request without the marker `patient_search_` that was never the key
of a delivered transaction, and for every request with the marker one of whose three
sub-keys was never the key of a delivered transaction. -/
theorem query_never_written (cs : List Call) (app : KVStoreApplication) (data : Bytes)
    (hr : (NewKVStoreApplication []).calls cs = .ok app) :
    (data ≠ [] → Contains data searchMarker = false → data ∉ deliveredKeys cs →
      app.Query data = .ok { Code := 0, Log := "does not exist", Key := data, Value := [] }) ∧
    (∀ id, Contains data searchMarker = true → (Split data searchMarker)[1]? = some id →
      (ascii "patient_name_" ++ id ∉ deliveredKeys cs ∨
        ascii "patient_age_" ++ id ∉ deliveredKeys cs ∨
        ascii "patient_sick_" ++ id ∉ deliveredKeys cs) →
      app.Query data = .ok { Code := 0, Log := "does not exist", Key := data, Value := [] }) := by
  refine ⟨fun hne hm hnd => ?_, fun id hm hs hnd => ?_⟩
  · rw [Query_direct app hm hne, find_eq_none_of_not_delivered cs app hr hnd]
  · rw [Query_composite app hm hs]
    rcases hnd with h | h | h
    · rw [find_eq_none_of_not_delivered cs app hr h]
    · rw [find_eq_none_of_not_delivered cs app hr h]
      cases app.db.find (ascii "patient_name_" ++ id) <;> rfl
    · rw [find_eq_none_of_not_delivered cs app hr h]
      cases app.db.find (ascii "patient_name_" ++ id) <;>
        cases app.db.find (ascii "patient_age_" ++ id) <;> rfl

/-- Witness of C6: after `a=b` is committed, the request `c`. -/
theorem query_never_written_witness :
    (KVStoreApplication.mk [(ascii "a", ascii "b")] (some ⟨[(ascii "a", ascii "b")], true⟩)).Query
        (ascii "c") =
      .ok { Code := 0, Log := "does not exist", Key := ascii "c", Value := [] } :=
  (query_never_written [.BeginBlock, .DeliverTx (ascii "a=b"), .Commit] _ (ascii "c")
    (by decide)).1 (by decide) (by decide) (by decide)

/-- C6 fails as stated.  After the three sub-keys of identifier 7 are delivered and
committed, the request `patient_search_7`, never the key of a delivered transaction, is
answered `exists` with the record; and the empty request, which the storage engine
refuses to read, is answered with an empty Log. -/
theorem query_never_written_counterexample :
    ascii "patient_search_7" ∉
        deliveredKeys [.BeginBlock, .DeliverTx (ascii "patient_name_7=Alice"),
          .DeliverTx (ascii "patient_age_7=40"), .DeliverTx (ascii "patient_sick_7=false"),
          .Commit] ∧
    queryAfter (NewKVStoreApplication [])
        [.BeginBlock, .DeliverTx (ascii "patient_name_7=Alice"),
          .DeliverTx (ascii "patient_age_7=40"), .DeliverTx (ascii "patient_sick_7=false"),
          .Commit]
        (ascii "patient_search_7") =
      .ok { Code := 0, Log := "exists", Key := ascii "patient_search_7",
            Value := ascii "\x7b\"name\":\"Alice\",\"age\":\"40\",\"sick\":\"false\"\x7d" } ∧
    queryAfter (NewKVStoreApplication []) [] [] =
      .ok { Code := 0, Log := "", Key := [], Value := [] } := by
  refine ⟨?_, ?_, ?_⟩ <;> decide

/-- C7 (amended): for an identifier that does not contain `patient_search_`, if the
committed store holds `patient_name_<id>`, `patient_age_<id>` and `patient_sick_<id>`,
`Query(patient_search_<id>)` returns Log `exists` and as Value the JSON object with the
fields `name`, `age`, `sick` in that order, each the JSON string of the stored value; for
`7`, `Alice`, `40`, `false` that is the object of the example. -/
theorem patient_search_found (app : KVStoreApplication) (id n a s : Bytes)
    (hid : Contains id searchMarker = false)
    (hn : app.db.find (ascii "patient_name_" ++ id) = some n)
    (ha : app.db.find (ascii "patient_age_" ++ id) = some a)
    (hs : app.db.find (ascii "patient_sick_" ++ id) = some s) :
    app.Query (ascii "patient_search_" ++ id) =
        .ok { Code := 0, Log := "exists", Key := ascii "patient_search_" ++ id,
              Value := ascii "\x7b\"name\":" ++ jsonString n ++ ascii ",\"age\":" ++ jsonString a
                ++ ascii ",\"sick\":" ++ jsonString s ++ ascii "\x7d" } ∧
      (id = ascii "7" → n = ascii "Alice" → a = ascii "40" → s = ascii "false" →
        app.Query (ascii "patient_search_7") =
          .ok { Code := 0, Log := "exists", Key := ascii "patient_search_7",
                Value := ascii "\x7b\"name\":\"Alice\",\"age\":\"40\",\"sick\":\"false\"\x7d" }) := by
  have hq := Query_search app hid
  rw [hn, ha, hs] at hq
  refine ⟨hq, ?_⟩
  rintro rfl rfl rfl rfl
  rw [show ascii "patient_search_7" = searchMarker ++ ascii "7" from by decide, hq]
  decide

/-- Witness of C7: the record of the example in the committed store. -/
theorem patient_search_found_witness :
    (NewKVStoreApplication [(ascii "patient_name_7", ascii "Alice"),
        (ascii "patient_age_7", ascii "40"), (ascii "patient_sick_7", ascii "false")]).Query
        (ascii "patient_search_7") =
      .ok { Code := 0, Log := "exists", Key := ascii "patient_search_7",
            Value := ascii "\x7b\"name\":\"Alice\",\"age\":\"40\",\"sick\":\"false\"\x7d" } :=
  (patient_search_found (NewKVStoreApplication [(ascii "patient_name_7", ascii "Alice"),
      (ascii "patient_age_7", ascii "40"), (ascii "patient_sick_7", ascii "false")])
    (ascii "7") (ascii "Alice") (ascii "40") (ascii "false")
    (by decide) (by decide) (by decide) (by decide)).2 rfl rfl rfl rfl

/-- C7 fails as stated for the identifier `patient_search_7`: with the three keys
`patient_name_patient_search_7`, `patient_age_patient_search_7` and
`patient_sick_patient_search_7` committed, `Query(patient_search_patient_search_7)`
answers `does not exist`, because the identifier it looks up is the empty text between
the first two markers. -/
theorem patient_search_found_counterexample :
    (NewKVStoreApplication [(ascii "patient_name_patient_search_7", ascii "Alice"),
        (ascii "patient_age_patient_search_7", ascii "40"),
        (ascii "patient_sick_patient_search_7", ascii "false")]).db.find
        (ascii "patient_name_" ++ ascii "patient_search_7") = some (ascii "Alice") ∧
    (NewKVStoreApplication [(ascii "patient_name_patient_search_7", ascii "Alice"),
        (ascii "patient_age_patient_search_7", ascii "40"),
        (ascii "patient_sick_patient_search_7", ascii "false")]).db.find
        (ascii "patient_age_" ++ ascii "patient_search_7") = some (ascii "40") ∧
    (NewKVStoreApplication [(ascii "patient_name_patient_search_7", ascii "Alice"),
        (ascii "patient_age_patient_search_7", ascii "40"),
        (ascii "patient_sick_patient_search_7", ascii "false")]).db.find
        (ascii "patient_sick_" ++ ascii "patient_search_7") = some (ascii "false") ∧
    (NewKVStoreApplication [(ascii "patient_name_patient_search_7", ascii "Alice"),
        (ascii "patient_age_patient_search_7", ascii "40"),
        (ascii "patient_sick_patient_search_7", ascii "false")]).Query
        (ascii "patient_search_" ++ ascii "patient_search_7") =
      .ok { Code := 0, Log := "does not exist",
            Key := ascii "patient_search_patient_search_7", Value := [] } := by
  refine ⟨?_, ?_, ?_, ?_⟩ <;> decide

/-- C8 (amended): for an identifier that does not contain `patient_search_`, when at
least one of `patient_name_<id>`, `patient_age_<id>`, `patient_sick_<id>` is absent from
the committed store, `Query(patient_search_<id>)` returns Log `does not exist` and an
empty Value. -/
theorem patient_search_partial (app : KVStoreApplication) (id : Bytes)
    (hid : Contains id searchMarker = false)
    (habs : app.db.find (ascii "patient_name_" ++ id) = none ∨
      app.db.find (ascii "patient_age_" ++ id) = none ∨
      app.db.find (ascii "patient_sick_" ++ id) = none) :
    app.Query (ascii "patient_search_" ++ id) =
      .ok { Code := 0, Log := "does not exist", Key := ascii "patient_search_" ++ id,
            Value := [] } := by
  have hq := Query_search app hid
  rw [show ascii "patient_search_" = searchMarker from rfl, hq]
  rcases habs with h | h | h
  · rw [h]
  · rw [h]
    cases app.db.find (ascii "patient_name_" ++ id) <;> rfl
  · rw [h]
    cases app.db.find (ascii "patient_name_" ++ id) <;>
      cases app.db.find (ascii "patient_age_" ++ id) <;> rfl

/-- Witness of C8: only the third sub-key is missing. -/
theorem patient_search_partial_witness :
    (NewKVStoreApplication [(ascii "patient_name_7", ascii "Alice"),
        (ascii "patient_age_7", ascii "40")]).Query (ascii "patient_search_" ++ ascii "7") =
      .ok { Code := 0, Log := "does not exist", Key := ascii "patient_search_" ++ ascii "7",
            Value := [] } :=
  patient_search_partial _ (ascii "7") (by decide) (Or.inr (Or.inr (by decide)))

/-- C8 fails as stated for the identifier `7patient_search_x`: none of its three sub-keys
is in the store, and `Query(patient_search_7patient_search_x)` still answers `exists`
with the record of identifier `7`. -/
theorem patient_search_partial_counterexample :
    (NewKVStoreApplication [(ascii "patient_name_7", ascii "Alice"),
        (ascii "patient_age_7", ascii "40"), (ascii "patient_sick_7", ascii "false")]).db.find
        (ascii "patient_name_" ++ ascii "7patient_search_x") = none ∧
    (NewKVStoreApplication [(ascii "patient_name_7", ascii "Alice"),
        (ascii "patient_age_7", ascii "40"), (ascii "patient_sick_7", ascii "false")]).Query
        (ascii "patient_search_" ++ ascii "7patient_search_x") =
      .ok { Code := 0, Log := "exists", Key := ascii "patient_search_7patient_search_x",
            Value := ascii "\x7b\"name\":\"Alice\",\"age\":\"40\",\"sick\":\"false\"\x7d" } := by
  constructor <;> decide

/-- C9 (amended): for a well-formed `k=v` with `k` absent from the committed store, after
`BeginBlock` and `DeliverTx(k=v)` and before `Commit`, `Query(k)` returns what it returned
before the block, which is Log `does not exist` with an empty Value when `k` does not
contain `patient_search_`, and `CheckTx(k=v)` still returns 0. -/
theorem batch_isolation (app app1 : KVStoreApplication) (r : ResponseDeliverTx) (k v : Bytes)
    (hk : k ≠ []) (_hv : v ≠ []) (hke : (0x3D : UInt8) ∉ k) (hve : (0x3D : UInt8) ∉ v)
    (habs : app.db.find k = none)
    (hd : app.BeginBlock.DeliverTx (k ++ eqSep ++ v) = .ok (app1, r)) :
    app1.Query k = app.Query k ∧
      (Contains k searchMarker = false →
        app1.Query k = .ok { Code := 0, Log := "does not exist", Key := k, Value := [] }) ∧
      app1.CheckTx (k ++ eqSep ++ v) = .ok (app1, { Code := 0, GasWanted := 1 }) := by
  have hdb : app1.db = app.db := DeliverTx_db app.BeginBlock app1 r hd
  have hq : app1.Query k = app.Query k := Query_congr_db hdb k
  refine ⟨hq, fun hm => ?_, ?_⟩
  · rw [hq, Query_direct app hm hk, habs]
  · apply CheckTx_of_isValid
    rw [isValid_congr_db hdb, isValid_of_Split app (Split_tx hke hve) hk, habs]
    simp

/-- Witness of C9: `k=v` staged on the empty store. -/
theorem batch_isolation_witness :
    (KVStoreApplication.mk [] (some ⟨[(ascii "k", ascii "v")], false⟩)).Query (ascii "k") =
      .ok { Code := 0, Log := "does not exist", Key := ascii "k", Value := [] } :=
  (batch_isolation (NewKVStoreApplication []) ⟨[], some ⟨[(ascii "k", ascii "v")], false⟩⟩
    { Code := 0 } (ascii "k") (ascii "v") (by decide) (by decide) (by decide) (by decide)
    (by decide) (by decide)).2.1 (by decide)

/-- C9 fails as stated for a key with the marker: with the record of identifier 7
committed, the key `patient_search_7` is absent from the committed store, and after
`BeginBlock` and `DeliverTx(patient_search_7=x)` the response to
`Query(patient_search_7)` is `exists` with the record, as it was before the block. -/
theorem batch_isolation_counterexample :
    (NewKVStoreApplication [(ascii "patient_name_7", ascii "Alice"),
        (ascii "patient_age_7", ascii "40"), (ascii "patient_sick_7", ascii "false")]).db.find
        (ascii "patient_search_7") = none ∧
    queryAfter (NewKVStoreApplication [(ascii "patient_name_7", ascii "Alice"),
        (ascii "patient_age_7", ascii "40"), (ascii "patient_sick_7", ascii "false")])
        [.BeginBlock, .DeliverTx (ascii "patient_search_7" ++ eqSep ++ ascii "x")]
        (ascii "patient_search_7") =
      .ok { Code := 0, Log := "exists", Key := ascii "patient_search_7",
            Value := ascii "\x7b\"name\":\"Alice\",\"age\":\"40\",\"sick\":\"false\"\x7d" } := by
  constructor <;> decide

/-- C10 (amended): validation returns Malformed, and `CheckTx` and `DeliverTx` code 1,
exactly for the transactions whose split on `=` does not yield two parts; whether a part
is empty is not checked, and `k=` with a non-empty key `k` gets code 0, or code 2 when
`k` is committed with the empty value. -/
theorem malformed_iff_not_two_parts (app : KVStoreApplication) (tx : Bytes) :
    ((Split tx eqSep).length ≠ 2 →
      app.CheckTx tx = .ok (app, { Code := 1, GasWanted := 1 }) ∧
        app.DeliverTx tx = .ok (app, { Code := 1 })) ∧
    (app.isValid tx = .ok 1 → (Split tx eqSep).length ≠ 2) ∧
    (∀ k, tx = k ++ eqSep → k ≠ [] → (0x3D : UInt8) ∉ k →
      app.CheckTx tx =
        .ok (app, { Code := if app.db.find k = some [] then 2 else 0, GasWanted := 1 })) := by
  refine ⟨fun h => ?_, fun h => ?_, fun k htx hk hke => ?_⟩
  · have hv := isValid_of_length app h
    exact ⟨CheckTx_of_isValid app hv, DeliverTx_of_rejected app hv (by decide)⟩
  · rcases isValid_inv app h with ⟨_, h1⟩ | ⟨k, v, _, _, h1⟩
    · exact h1
    · split at h1 <;> cases h1
  · subst htx
    have hs : Split (k ++ eqSep) eqSep = [k, []] := by
      have := Split_tx (k := k) (v := []) hke (by simp)
      simpa using this
    exact CheckTx_of_isValid app (isValid_of_Split app hs hk)

/-- Witness of C10 at `a=b=c` on the empty store. -/
theorem malformed_iff_not_two_parts_witness :
    (NewKVStoreApplication []).CheckTx (ascii "a=b=c") =
        .ok (NewKVStoreApplication [], { Code := 1, GasWanted := 1 }) ∧
      (NewKVStoreApplication []).DeliverTx (ascii "a=b=c") =
        .ok (NewKVStoreApplication [], { Code := 1 }) :=
  (malformed_iff_not_two_parts (NewKVStoreApplication []) (ascii "a=b=c")).1 (by decide)

/-- C10 fails as stated: `k=` splits into the key `k` and an empty second part, and on
the empty store `CheckTx(k=)` returns code 0 and `DeliverTx(k=)` in an open block returns
code 0 and stages the write of the empty value. -/
theorem malformed_iff_not_two_parts_counterexample :
    Split (ascii "k=") eqSep = [ascii "k", []] ∧
    (NewKVStoreApplication []).CheckTx (ascii "k=") =
      .ok (NewKVStoreApplication [], { Code := 0, GasWanted := 1 }) ∧
    (NewKVStoreApplication []).BeginBlock.DeliverTx (ascii "k=") =
      .ok (⟨[], some ⟨[(ascii "k", [])], false⟩⟩, { Code := 0 }) := by
  refine ⟨?_, ?_, ?_⟩ <;> decide

/-! ## The split of a string that contains the separator -/

theorem length_genSplit_pos (sep : Bytes) (n : Nat) (s : Bytes) :
    1 ≤ (genSplit sep n s).length := by
  cases n with
  | zero => simp [genSplit]
  | succ n =>
    rw [genSplit]
    cases Index s sep <;> simp

theorem Count_pos {s sep : Bytes} {i : Nat} (hsep : sep ≠ []) (hi : Index s sep = some i) :
    1 ≤ Count s sep := by
  have hle := Index_some_le hi
  have hpos : 0 < sep.length := List.length_pos.mpr hsep
  rw [Count]
  cases hl : s.length with
  | zero => omega
  | succ f => rw [countLoop, hi]; simp

/-- A string that contains the (non-empty) separator splits into at least two parts. -/
theorem two_le_length_Split {s sep : Bytes} (hsep : sep ≠ [])
    (hc : Contains s sep = true) : 2 ≤ (Split s sep).length := by
  obtain ⟨i, hi⟩ := Option.isSome_iff_exists.mp hc
  obtain ⟨n, hn⟩ : ∃ n, Count s sep = n + 1 := ⟨Count s sep - 1, by
    have := Count_pos hsep hi; omega⟩
  rw [Split, hn, genSplit, hi]
  have := length_genSplit_pos sep n (s.drop (i + sep.length))
  simp only [List.length_cons]
  omega

theorem Split_second {s sep : Bytes} (hsep : sep ≠ []) (hc : Contains s sep = true) :
    ∃ id, (Split s sep)[1]? = some id := by
  have h := two_le_length_Split hsep hc
  exact ⟨(Split s sep)[1], List.getElem?_eq_getElem (by omega)⟩

theorem searchMarker_ne_nil : searchMarker ≠ [] := by decide

/-- C11 (amended): for every non-empty request that does not contain `patient_search_`,
`Query` performs a direct lookup, returning Log `exists` and the stored value when the
request key is in the committed store and Log `does not exist` when it is absent; the
composite lookup is taken for every request that contains `patient_search_`, wherever
the marker stands. -/
theorem query_direct_lookup (app : KVStoreApplication) (data : Bytes) :
    (data ≠ [] → Contains data searchMarker = false →
      (∀ v, app.db.find data = some v →
        app.Query data = .ok { Code := 0, Log := "exists", Key := data, Value := v }) ∧
      (app.db.find data = none →
        app.Query data =
          .ok { Code := 0, Log := "does not exist", Key := data, Value := [] })) ∧
    (Contains data searchMarker = true →
      ∃ id, (Split data searchMarker)[1]? = some id ∧
        app.Query data =
          .ok (match app.db.find (ascii "patient_name_" ++ id),
              app.db.find (ascii "patient_age_" ++ id),
              app.db.find (ascii "patient_sick_" ++ id) with
            | some n, some a, some s =>
              { Code := 0, Log := "exists", Key := data,
                Value := Marshal { Name := n, Age := a, Sick := s } }
            | _, _, _ =>
              { Code := 0, Log := "does not exist", Key := data, Value := [] })) := by
  refine ⟨fun hne hm => ⟨fun v hv => ?_, fun hv => ?_⟩, fun hm => ?_⟩
  · rw [Query_direct app hm hne, hv]
  · rw [Query_direct app hm hne, hv]
  · obtain ⟨id, hid⟩ := Split_second searchMarker_ne_nil hm
    exact ⟨id, hid, Query_composite app hm hid⟩

/-- Witness of C11: the request `a` on the store holding `a=b`. -/
theorem query_direct_lookup_witness :
    (NewKVStoreApplication [(ascii "a", ascii "b")]).Query (ascii "a") =
      .ok { Code := 0, Log := "exists", Key := ascii "a", Value := ascii "b" } :=
  ((query_direct_lookup (NewKVStoreApplication [(ascii "a", ascii "b")]) (ascii "a")).1
    (by decide) (by decide)).1 (ascii "b") (by decide)

/-- C11 fails as stated.  The request `xpatient_search_7` does not start with the marker
and is a key of the committed store, and `Query` answers `does not exist`: it takes the
composite lookup for identifier 7.  And the empty request, absent from the store, is
answered with an empty Log. -/
theorem query_direct_lookup_counterexample :
    searchMarker.isPrefixOf (ascii "xpatient_search_7") = false ∧
    (NewKVStoreApplication [(ascii "xpatient_search_7", ascii "v")]).db.find
        (ascii "xpatient_search_7") = some (ascii "v") ∧
    (NewKVStoreApplication [(ascii "xpatient_search_7", ascii "v")]).Query
        (ascii "xpatient_search_7") =
      .ok { Code := 0, Log := "does not exist", Key := ascii "xpatient_search_7",
            Value := [] } ∧
    (NewKVStoreApplication []).Query [] =
      .ok { Code := 0, Log := "", Key := [], Value := [] } := by
  refine ⟨?_, ?_, ?_, ?_⟩ <;> decide

/-- C12 (amended): when a read inside `Query` fails with a storage error other than
key-not-found, `Query` still returns a normal response; on the direct path the response
has an empty Log and an empty Value, and when one of the three reads of the composite
path fails the response has Log `does not exist` and an empty Value.  The error is at
most printed. -/
theorem query_fault_response (txn : ReadTxn) (data : Bytes) (e : BadgerErr)
    (he : e ≠ .ErrKeyNotFound) :
    (Contains data searchMarker = false → txn data = .error e →
      QueryWith txn data = .ok { Code := 0, Log := "", Key := data, Value := [] }) ∧
    (∀ id, Contains data searchMarker = true → (Split data searchMarker)[1]? = some id →
      (txn (ascii "patient_name_" ++ id) = .error e ∨
        txn (ascii "patient_age_" ++ id) = .error e ∨
        txn (ascii "patient_sick_" ++ id) = .error e) →
      QueryWith txn data =
        .ok { Code := 0, Log := "does not exist", Key := data, Value := [] }) := by
  refine ⟨fun hm hd => ?_, fun id hm hs hf => ?_⟩
  · simp [QueryWith, QueryView, hm, hd, he]
  · unfold QueryWith QueryView
    simp only [hm, hs, if_true]
    cases ha : txn (ascii "patient_name_" ++ id) with
    | error ea =>
      by_cases hea : ea = .ErrKeyNotFound
      · subst hea
        cases hb : txn (ascii "patient_age_" ++ id) with
        | error eb =>
          by_cases heb : eb = .ErrKeyNotFound
          · subst heb; simp [isFault, errOf]
          · simp [isFault, errOf, heb]
        | ok ib => simp [isFault, errOf]
      · simp [isFault, errOf, hea]
    | ok ia =>
      cases hb : txn (ascii "patient_age_" ++ id) with
      | error eb =>
        by_cases heb : eb = .ErrKeyNotFound
        · subst heb; simp [isFault, errOf]
        · simp [isFault, errOf, heb]
      | ok ib =>
        cases hc : txn (ascii "patient_sick_" ++ id) with
        | error ec => simp [isFault, errOf]
        | ok ic =>
          rw [ha, hb, hc] at hf
          rcases hf with h | h | h <;> cases h

/-- Witness of C12: a reader that fails on every key, asked for `k`. -/
theorem query_fault_response_witness :
    QueryWith (fun _ => .error .ErrFault) (ascii "k") =
      .ok { Code := 0, Log := "", Key := ascii "k", Value := [] } :=
  (query_fault_response (fun _ => .error .ErrFault) (ascii "k") .ErrFault (by decide)).1
    (by decide) rfl

/-- C12 fails as stated: `Query` returns a normal response when a read fails.  On a
reader that fails on every key the direct request `k` gets an empty Log and the composite
request `patient_search_7` gets Log `does not exist`; so does the composite request when
only the third read fails; and on the storage engine itself the read of the empty key is
refused and the empty request gets a response with an empty Log. -/
theorem query_fault_response_counterexample :
    QueryWith (fun _ => .error .ErrFault) (ascii "k") =
      .ok { Code := 0, Log := "", Key := ascii "k", Value := [] } ∧
    QueryWith (fun _ => .error .ErrFault) (ascii "patient_search_7") =
      .ok { Code := 0, Log := "does not exist", Key := ascii "patient_search_7",
            Value := [] } ∧
    QueryWith
        (fun key => if key = ascii "patient_sick_7" then .error .ErrFault
          else .ok ⟨.ok (ascii "x")⟩)
        (ascii "patient_search_7") =
      .ok { Code := 0, Log := "does not exist", Key := ascii "patient_search_7",
            Value := [] } ∧
    (NewKVStoreApplication []).db.Get [] = .error .ErrEmptyKey ∧
    (NewKVStoreApplication []).Query [] =
      .ok { Code := 0, Log := "", Key := [], Value := [] } := by
  refine ⟨?_, ?_, ?_, ?_, ?_⟩ <;> decide

theorem Commit_inv (app app1 : KVStoreApplication) (r : ResponseCommit)
    (h : app.Commit = .ok (app1, r)) :
    ∃ batch, app.currentBatch = some batch ∧ batch.discarded = false ∧ r = { Data := [] } ∧
      app1 = { db := applyWrites app.db batch.writes,
               currentBatch := some { batch with discarded := true } } := by
  unfold KVStoreApplication.Commit at h
  cases hb : app.currentBatch with
  | none => simp [hb] at h
  | some batch =>
    by_cases hd : batch.discarded = true
    · simp [hb, hd] at h
    · simp only [hb, hd, Bool.false_eq_true, if_false, Except.ok.injEq, Prod.mk.injEq] at h
      exact ⟨batch, rfl, by simpa using hd, h.2.symm, h.1.symm⟩

/-- Delivery of an accepted transaction into a batch that is already discarded. -/
theorem DeliverTx_discarded (app : KVStoreApplication) {tx : Bytes} {batch : Txn}
    (hb : app.currentBatch = some batch) (hd : batch.discarded = true)
    (h0 : app.isValid tx = .ok 0) :
    app.DeliverTx tx = .error (.storage .ErrDiscardedTxn) := by
  rcases isValid_inv app h0 with ⟨h1, _⟩ | ⟨k, v, hs, _, _⟩
  · cases h1
  · rw [DeliverTx_of_accepted app hs h0]
    simp [hb, Txn.Set, hd]

/-- Delivery of an accepted transaction through the nil `currentBatch`. -/
theorem DeliverTx_nil (app : KVStoreApplication) {tx : Bytes}
    (hb : app.currentBatch = none) (h0 : app.isValid tx = .ok 0) :
    app.DeliverTx tx = .error .nilDereference := by
  rcases isValid_inv app h0 with ⟨h1, _⟩ | ⟨k, v, hs, _, _⟩
  · cases h1
  · rw [DeliverTx_of_accepted app hs h0]
    simp [hb]

/-- C13: in the state a `Commit` leaves, a `DeliverTx` of a transaction that validation
accepts and a second `Commit` do not return a response: they end in a panic
(`ErrDiscardedTxn` from `Set`, the commit pre-check of the engine), and the same holds
before any `BeginBlock`, where `currentBatch` is nil.  A panic ends the call before any
write to the committed store. -/
theorem closed_batch_panics (app : KVStoreApplication) (tx : Bytes) :
    (∀ (app0 : KVStoreApplication) (r : ResponseCommit), app0.Commit = .ok (app, r) →
      (app.isValid tx = .ok 0 → app.DeliverTx tx = .error (.storage .ErrDiscardedTxn)) ∧
        app.Commit = .error .commitDiscarded) ∧
    (app.currentBatch = none →
      (app.isValid tx = .ok 0 → app.DeliverTx tx = .error .nilDereference) ∧
        app.Commit = .error .nilDereference) := by
  refine ⟨fun app0 r hc => ?_, fun hb => ?_⟩
  · obtain ⟨batch, _, _, _, h1⟩ := Commit_inv app0 app r hc
    subst h1
    exact ⟨fun h0 => DeliverTx_discarded _ rfl rfl h0, by simp [KVStoreApplication.Commit]⟩
  · exact ⟨fun h0 => DeliverTx_nil app hb h0, by simp [KVStoreApplication.Commit, hb]⟩

/-- Witness of C13: after the block with `a=b` is committed on the empty store, `c=d`
and a second `Commit`. -/
theorem closed_batch_panics_witness :
    (KVStoreApplication.mk [(ascii "a", ascii "b")]
        (some ⟨[(ascii "a", ascii "b")], true⟩)).DeliverTx (ascii "c=d") =
      .error (.storage .ErrDiscardedTxn) ∧
    (KVStoreApplication.mk [(ascii "a", ascii "b")]
        (some ⟨[(ascii "a", ascii "b")], true⟩)).Commit = .error .commitDiscarded :=
  ⟨((closed_batch_panics ⟨[(ascii "a", ascii "b")], some ⟨[(ascii "a", ascii "b")], true⟩⟩
      (ascii "c=d")).1 ⟨[], some ⟨[(ascii "a", ascii "b")], false⟩⟩ ⟨[]⟩ (by decide)).1
      (by decide),
    ((closed_batch_panics ⟨[(ascii "a", ascii "b")], some ⟨[(ascii "a", ascii "b")], true⟩⟩
      (ascii "c=d")).1 ⟨[], some ⟨[(ascii "a", ascii "b")], false⟩⟩ ⟨[]⟩ (by decide)).2⟩

/-- C14: `CheckTx` returns the state it was given; `DeliverTx`, `BeginBlock`, `EndBlock`,
`Info`, `SetOption` and `InitChain` leave the committed store as it was; and `Query`,
which has no state to return, reads nothing but the committed store. -/
theorem only_commit_writes (app : KVStoreApplication) (tx : Bytes) :
    (∀ app1 r, app.CheckTx tx = .ok (app1, r) → app1 = app) ∧
    (∀ app1 r, app.DeliverTx tx = .ok (app1, r) → app1.db = app.db) ∧
    (∀ batch, (KVStoreApplication.mk app.db batch).Query tx = app.Query tx) ∧
    app.BeginBlock.db = app.db ∧ app.EndBlock = app ∧ app.Info = app ∧
    app.SetOption = app ∧ app.InitChain = app := by
  refine ⟨fun app1 r h => ?_, fun app1 r h => DeliverTx_db app app1 r h, fun _ => rfl,
    rfl, rfl, rfl, rfl, rfl⟩
  unfold KVStoreApplication.CheckTx at h
  cases hv : app.isValid tx with
  | error p => simp [hv] at h
  | ok code =>
    simp only [hv, Except.ok.injEq, Prod.mk.injEq] at h
    exact h.1.symm

/-- Witness of C14: `c=d` delivered into an open batch on the store holding `a=b`. -/
theorem only_commit_writes_witness :
    (KVStoreApplication.mk [(ascii "a", ascii "b")] (some ⟨[(ascii "c", ascii "d")], false⟩)).db =
      (KVStoreApplication.mk [(ascii "a", ascii "b")] (some ⟨[], false⟩)).db :=
  (only_commit_writes ⟨[(ascii "a", ascii "b")], some ⟨[], false⟩⟩ (ascii "c=d")).2.1
    ⟨[(ascii "a", ascii "b")], some ⟨[(ascii "c", ascii "d")], false⟩⟩ ⟨0⟩ (by decide)

/-- C17 (amended): when `BeginBlock` is called while a batch is still open, the writes
staged in that batch are dropped: after `BeginBlock`, `DeliverTx`, `BeginBlock`, `Commit`
the committed store is the store before the first `BeginBlock`, every `Query` returns
what it returned before, and for a non-empty `k` without `patient_search_` that was
absent before, `Query(k)` still returns `does not exist`. -/
theorem begin_block_discards (app app1 : KVStoreApplication) (r : ResponseDeliverTx)
    (tx : Bytes) (hd : app.BeginBlock.DeliverTx tx = .ok (app1, r)) :
    app1.BeginBlock.Commit =
        .ok ({ db := app.db, currentBatch := some ⟨[], true⟩ }, { Data := [] }) ∧
      (∀ data, (KVStoreApplication.mk app.db (some ⟨[], true⟩)).Query data = app.Query data) ∧
      (∀ k, k ≠ [] → Contains k searchMarker = false → app.db.find k = none →
        (KVStoreApplication.mk app.db (some ⟨[], true⟩)).Query k =
          .ok { Code := 0, Log := "does not exist", Key := k, Value := [] }) := by
  have hdb : app1.db = app.db := DeliverTx_db app.BeginBlock app1 r hd
  refine ⟨?_, fun _ => rfl, fun k hk hm habs => ?_⟩
  · simp [KVStoreApplication.Commit, KVStoreApplication.BeginBlock, applyWrites, hdb]
  · rw [Query_direct _ hm hk]
    simp [habs]

/-- Witness of C17: `k=v` staged on the empty store, then a second `BeginBlock`. -/
theorem begin_block_discards_witness :
    (KVStoreApplication.mk [] (some ⟨[(ascii "k", ascii "v")], false⟩)).BeginBlock.Commit =
      .ok ({ db := [], currentBatch := some ⟨[], true⟩ }, { Data := [] }) :=
  (begin_block_discards (NewKVStoreApplication [])
    ⟨[], some ⟨[(ascii "k", ascii "v")], false⟩⟩ ⟨0⟩ (ascii "k=v") (by decide)).1

/-- C17 fails as stated for a key with the marker: with the record of identifier 7
committed, `patient_search_7` is absent from the committed store, and after `BeginBlock`,
`DeliverTx(patient_search_7=x)`, `BeginBlock`, `Commit` the store is unchanged, yet
`Query(patient_search_7)` answers `exists` with the record. -/
theorem begin_block_discards_counterexample :
    (NewKVStoreApplication [(ascii "patient_name_7", ascii "Alice"),
        (ascii "patient_age_7", ascii "40"), (ascii "patient_sick_7", ascii "false")]).db.find
        (ascii "patient_search_7") = none ∧
    (NewKVStoreApplication [(ascii "patient_name_7", ascii "Alice"),
        (ascii "patient_age_7", ascii "40"), (ascii "patient_sick_7", ascii "false")]).calls
        [.BeginBlock, .DeliverTx (ascii "patient_search_7=x"), .BeginBlock, .Commit] =
      .ok ⟨[(ascii "patient_name_7", ascii "Alice"), (ascii "patient_age_7", ascii "40"),
        (ascii "patient_sick_7", ascii "false")], some ⟨[], true⟩⟩ ∧
    queryAfter (NewKVStoreApplication [(ascii "patient_name_7", ascii "Alice"),
        (ascii "patient_age_7", ascii "40"), (ascii "patient_sick_7", ascii "false")])
        [.BeginBlock, .DeliverTx (ascii "patient_search_7=x"), .BeginBlock, .Commit]
        (ascii "patient_search_7") =
      .ok { Code := 0, Log := "exists", Key := ascii "patient_search_7",
            Value := ascii "\x7b\"name\":\"Alice\",\"age\":\"40\",\"sick\":\"false\"\x7d" } := by
  refine ⟨?_, ?_, ?_⟩ <;> decide

/-- C18 (amended): in a state with an open batch, `DeliverTx` of a transaction whose
validation code is 1 or 2 returns that code and the state it was given; for a transaction
with code 0, which has exactly one `=` and splits into `k` and `v`, whose key the storage
engine accepts (no `!badger!` prefix, at most 65000 bytes) and for which the batch has
room (its count and its size stay below the limits of the engine), it returns code 0 and
the batch is the batch before followed by the one write `(k, v)`. -/
theorem deliver_effects (app : KVStoreApplication) (batch : Txn) (tx : Bytes)
    (hb : app.currentBatch = some batch) (hopen : batch.discarded = false) :
    (∀ code, app.isValid tx = .ok code → code ≠ 0 →
      (code = 1 ∨ code = 2) ∧ app.DeliverTx tx = .ok (app, { Code := code })) ∧
    (app.isValid tx = .ok 0 →
      ∃ k v, Split tx eqSep = [k, v] ∧ tx.count 0x3D = 1 ∧
        (badgerPrefix.isPrefixOf k = false → k.length ≤ maxKeySize →
          batch.count + 1 < maxBatchCount →
          batch.size + (estimateSize k v + 10) < maxBatchSize →
          app.DeliverTx tx =
            .ok ({ app with
                currentBatch := some { batch with writes := batch.writes ++ [(k, v)] } },
              { Code := 0 }))) := by
  refine ⟨fun code hv hc => ⟨?_, DeliverTx_of_rejected app hv hc⟩, fun h0 => ?_⟩
  · rcases isValid_inv app hv with ⟨h1, _⟩ | ⟨k, v, _, _, h1⟩
    · exact Or.inl h1
    · split at h1
      · exact Or.inr h1
      · exact absurd h1 hc
  · rcases isValid_inv app h0 with ⟨h1, _⟩ | ⟨k, v, hs, hk, _⟩
    · cases h1
    · refine ⟨k, v, hs, ?_, fun hp hl hcount hsize => ?_⟩
      · have hlen := length_Split_single 0x3D tx
        rw [← eqSep_eq, hs] at hlen
        simp only [List.length_cons, List.length_nil] at hlen
        omega
      · rw [DeliverTx_of_accepted app hs h0]
        simp [hb, Txn.Set_ok batch v hopen hk hp hl hcount hsize]

/-- Witness of C18: `c=d` delivered into the open batch holding `a=b`. -/
theorem deliver_effects_witness :
    (KVStoreApplication.mk [] (some ⟨[(ascii "a", ascii "b")], false⟩)).DeliverTx (ascii "c=d") =
      .ok (⟨[], some ⟨[(ascii "a", ascii "b"), (ascii "c", ascii "d")], false⟩⟩,
        { Code := 0 }) := by
  obtain ⟨k, v, hs, _, h⟩ :=
    (deliver_effects ⟨[], some ⟨[(ascii "a", ascii "b")], false⟩⟩
      ⟨[(ascii "a", ascii "b")], false⟩ (ascii "c=d") rfl rfl).2 (by decide)
  have hkv : [k, v] = [ascii "c", ascii "d"] := hs.symm.trans (by decide)
  simp only [List.cons.injEq, and_true] at hkv
  obtain ⟨rfl, rfl⟩ := hkv
  exact h (by decide) (by decide) (by decide) (by decide)

/-- A batch that holds `n` writes with `n + 2` at the count limit refuses the next write,
and `DeliverTx` panics. -/
theorem DeliverTx_full_batch (n : Nat) (hn : maxBatchCount ≤ n + 2) :
    (KVStoreApplication.mk [] (some ⟨List.replicate n (ascii "a", ascii "b"), false⟩)).DeliverTx
        (ascii "k=v") = .error (.storage .ErrTxnTooBig) := by
  have hs : Split (ascii "k=v") eqSep = [ascii "k", ascii "v"] := by decide
  have h0 : KVStoreApplication.isValid
      ⟨[], some ⟨List.replicate n (ascii "a", ascii "b"), false⟩⟩ (ascii "k=v") = .ok 0 :=
    (by decide : (NewKVStoreApplication []).isValid (ascii "k=v") = .ok 0)
  have hk : ¬ ascii "k" = [] := by decide
  have hp : badgerPrefix.isPrefixOf (ascii "k") = false := by decide
  have hl : ¬ maxKeySize < (ascii "k").length := by decide
  have hc : maxBatchCount ≤ 1 + n + 1 := by omega
  rw [DeliverTx_of_accepted _ hs h0]
  simp only [Txn.Set, Txn.count, List.length_replicate, hk, hp, hl, hc]
  simp

/-- C18 fails as stated.  In a freshly begun block on the empty store `!badger!x=v` has
validation code 0, and `DeliverTx` ends in the panic on `ErrInvalidKey` instead of
staging the write; and in an open batch that already holds 104855 writes `k=v` has
validation code 0, and `DeliverTx` ends in the panic on `ErrTxnTooBig`. -/
theorem deliver_effects_counterexample :
    (NewKVStoreApplication []).BeginBlock.currentBatch = some ⟨[], false⟩ ∧
    (NewKVStoreApplication []).BeginBlock.isValid (ascii "!badger!x=v") = .ok 0 ∧
    (NewKVStoreApplication []).BeginBlock.DeliverTx (ascii "!badger!x=v") =
      .error (.storage .ErrInvalidKey) ∧
    (NewKVStoreApplication []).isValid (ascii "k=v") = .ok 0 ∧
    (KVStoreApplication.mk []
        (some ⟨List.replicate 104855 (ascii "a", ascii "b"), false⟩)).DeliverTx (ascii "k=v") =
      .error (.storage .ErrTxnTooBig) :=
  ⟨by decide, by decide, by decide, by decide, DeliverTx_full_batch 104855 (by decide)⟩

/-- The code of a returning `DeliverTx` is the validation code of the transaction. -/
theorem DeliverTx_code (app app1 : KVStoreApplication) (r : ResponseDeliverTx) {tx : Bytes}
    (h : app.DeliverTx tx = .ok (app1, r)) : app.isValid tx = .ok r.Code := by
  rcases DeliverTx_inv app app1 r h with ⟨_, _, h1⟩ | ⟨_, _, _, _, h0, _, _, _, _, _, hr, _⟩
  · exact h1
  · rw [hr]; exact h0

/-- C16 (amended): validation reads only the committed store.  For a well-formed `k=v`
whose key is absent from the committed store and accepted by the storage engine (no
`!badger!` prefix, at most 65000 bytes), delivering `k=v` twice in one block returns code
0 both times and stages the write twice; and the code `DeliverTx` returns for a
transaction is its validation code against the committed store, the same whatever writes
the batch holds. -/
theorem validation_ignores_batch (app : KVStoreApplication) (k v : Bytes)
    (hk : k ≠ []) (_hv : v ≠ []) (hke : (0x3D : UInt8) ∉ k) (hve : (0x3D : UInt8) ∉ v)
    (habs : app.db.find k = none)
    (hpre : badgerPrefix.isPrefixOf k = false) (hlen : k.length ≤ maxKeySize) :
    (app.BeginBlock.DeliverTx (k ++ eqSep ++ v) =
        .ok (⟨app.db, some ⟨[(k, v)], false⟩⟩, { Code := 0 }) ∧
      (KVStoreApplication.mk app.db (some ⟨[(k, v)], false⟩)).DeliverTx (k ++ eqSep ++ v) =
        .ok (⟨app.db, some ⟨[(k, v), (k, v)], false⟩⟩, { Code := 0 })) ∧
    (∀ (b : Option Txn) (tx : Bytes) (a : KVStoreApplication) (r : ResponseDeliverTx),
      KVStoreApplication.DeliverTx ⟨app.db, b⟩ tx = .ok (a, r) →
      app.CheckTx tx = .ok (app, { Code := r.Code, GasWanted := 1 })) ∧
    (∀ (b1 b2 : Option Txn) (tx : Bytes) (a1 a2 : KVStoreApplication)
        (r1 r2 : ResponseDeliverTx),
      KVStoreApplication.DeliverTx ⟨app.db, b1⟩ tx = .ok (a1, r1) →
      KVStoreApplication.DeliverTx ⟨app.db, b2⟩ tx = .ok (a2, r2) → r1.Code = r2.Code) := by
  have hs := Split_tx hke hve
  have h0 : ∀ b, KVStoreApplication.isValid ⟨app.db, b⟩ (k ++ eqSep ++ v) = .ok 0 := by
    intro b
    rw [isValid_of_Split _ hs hk]
    simp [habs]
  refine ⟨⟨?_, ?_⟩, fun b tx a r h => ?_, fun b1 b2 tx a1 a2 r1 r2 h1 h2 => ?_⟩
  · rw [DeliverTx_of_accepted app.BeginBlock hs (h0 _)]
    simp [KVStoreApplication.BeginBlock, Txn.Set_fresh v hk hpre hlen]
  · rw [DeliverTx_of_accepted _ hs (h0 _)]
    simp [Txn.Set_second v v hlen hk hpre hlen]
  · exact CheckTx_of_isValid app (DeliverTx_code ⟨app.db, b⟩ a r h)
  · have e1 : KVStoreApplication.isValid ⟨app.db, b1⟩ tx = .ok r1.Code := DeliverTx_code _ a1 r1 h1
    have e2 : KVStoreApplication.isValid ⟨app.db, b1⟩ tx = .ok r2.Code :=
      DeliverTx_code ⟨app.db, b2⟩ a2 r2 h2
    rw [e1] at e2
    exact Except.ok.inj e2

/-- Witness of C16: `k=v` delivered twice on the empty store. -/
theorem validation_ignores_batch_witness :
    (NewKVStoreApplication []).BeginBlock.DeliverTx (ascii "k" ++ eqSep ++ ascii "v") =
        .ok (⟨[], some ⟨[(ascii "k", ascii "v")], false⟩⟩, { Code := 0 }) ∧
      (KVStoreApplication.mk [] (some ⟨[(ascii "k", ascii "v")], false⟩)).DeliverTx
          (ascii "k" ++ eqSep ++ ascii "v") =
        .ok (⟨[], some ⟨[(ascii "k", ascii "v"), (ascii "k", ascii "v")], false⟩⟩,
          { Code := 0 }) :=
  (validation_ignores_batch (NewKVStoreApplication []) (ascii "k") (ascii "v") (by decide)
    (by decide) (by decide) (by decide) (by decide) (by decide) (by decide)).1

/-- C16 fails as stated for a key the storage engine rejects: `!badger!x=v` is
well-formed and its key is absent from the empty store, validation gives code 0, and the
first `DeliverTx` of the block ends in the panic on `ErrInvalidKey` instead of returning
code 0. -/
theorem validation_ignores_batch_counterexample :
    (NewKVStoreApplication []).db.find (ascii "!badger!x") = none ∧
    (NewKVStoreApplication []).CheckTx (ascii "!badger!x" ++ eqSep ++ ascii "v") =
      .ok (NewKVStoreApplication [], { Code := 0, GasWanted := 1 }) ∧
    (NewKVStoreApplication []).BeginBlock.DeliverTx (ascii "!badger!x" ++ eqSep ++ ascii "v") =
      .error (.storage .ErrInvalidKey) := by
  refine ⟨?_, ?_, ?_⟩ <;> decide

theorem isValid_ne_indexOutOfRange (txn : ReadTxn) (tx : Bytes) :
    isValidWith txn tx ≠ .error .indexOutOfRange := by
  unfold isValidWith
  by_cases hl : (Split tx eqSep).length = 2
  · obtain ⟨k, v, hs⟩ := List.length_eq_two.mp hl
    simp only [hs]
    cases h : isValidView txn k v with
    | mk code err =>
      cases err <;> simp [h]
  · simp [hl]

theorem QueryWith_ne_indexOutOfRange (txn : ReadTxn) (data : Bytes) :
    QueryWith txn data ≠ .error .indexOutOfRange := by
  unfold QueryWith QueryView
  by_cases hm : Contains data searchMarker = true
  · obtain ⟨id, hid⟩ := Split_second searchMarker_ne_nil hm
    simp only [hm, hid, if_true]
    split_ifs <;> simp
  · simp only [hm, Bool.false_eq_true, if_false]
    cases txn data with
    | error e => by_cases he : e = .ErrKeyNotFound <;> simp [he]
    | ok item => cases h : item.Value <;> simp [h]

/-- C19: the unchecked index accesses stay in range.  `isValid` returns 0 only when the
split of the transaction on `=` has exactly two parts, so `parts[0]` and `parts[1]` in
`DeliverTx` exist, and a request that contains the marker splits on it into at least two
parts, so element `[1]` in `Query` exists; neither `DeliverTx` nor `Query`, over any
reader, ends in an index-out-of-range panic. -/
theorem index_in_range (app : KVStoreApplication) (tx data : Bytes) (txn : ReadTxn) :
    (app.isValid tx = .ok 0 → (Split tx eqSep).length = 2) ∧
    (Contains data searchMarker = true → 2 ≤ (Split data searchMarker).length) ∧
    app.DeliverTx tx ≠ .error .indexOutOfRange ∧
    app.Query data ≠ .error .indexOutOfRange ∧
    QueryWith txn data ≠ .error .indexOutOfRange := by
  refine ⟨fun h0 => ?_, fun hm => two_le_length_Split searchMarker_ne_nil hm, ?_,
    QueryWith_ne_indexOutOfRange _ data, QueryWith_ne_indexOutOfRange txn data⟩
  · rcases isValid_inv app h0 with ⟨h1, _⟩ | ⟨k, v, hs, _, _⟩
    · cases h1
    · rw [hs]; rfl
  · cases hv : app.isValid tx with
    | error p =>
      have hp : p ≠ .indexOutOfRange := by
        intro hp
        subst hp
        exact isValid_ne_indexOutOfRange app.db.Get tx hv
      simp [KVStoreApplication.DeliverTx, hv, hp]
    | ok code =>
      by_cases hc : code = 0
      · subst hc
        rcases isValid_inv app hv with ⟨h1, _⟩ | ⟨k, v, hs, _, _⟩
        · cases h1
        · rw [DeliverTx_of_accepted app hs hv]
          cases app.currentBatch with
          | none => simp
          | some batch => cases h : batch.Set k v <;> simp [h]
      · rw [DeliverTx_of_rejected app hv hc]; simp

/-- Witness of C19: the transaction `a=b` and the request `xpatient_search_7`. -/
theorem index_in_range_witness :
    (Split (ascii "a=b") eqSep).length = 2 ∧
      2 ≤ (Split (ascii "xpatient_search_7") searchMarker).length :=
  ⟨(index_in_range (NewKVStoreApplication []) (ascii "a=b") (ascii "xpatient_search_7")
      (NewKVStoreApplication []).db.Get).1 (by decide),
    (index_in_range (NewKVStoreApplication []) (ascii "a=b") (ascii "xpatient_search_7")
      (NewKVStoreApplication []).db.Get).2.1 (by decide)⟩

/-! ## A block of deliveries -/

theorem calls_append (app : KVStoreApplication) (l1 l2 : List Call) :
    app.calls (l1 ++ l2) =
      match app.calls l1 with
      | .error p => .error p
      | .ok app1 => app1.calls l2 := by
  induction l1 generalizing app with
  | nil => rfl
  | cons c cs ih =>
    simp only [List.cons_append, KVStoreApplication.calls]
    cases app.call c with
    | error p => rfl
    | ok a => exact ih a

theorem acceptedWrites_congr_db {a b : KVStoreApplication} (h : a.db = b.db)
    (txs : List Bytes) : acceptedWrites a txs = acceptedWrites b txs := by
  induction txs with
  | nil => rfl
  | cons tx txs ih => simp only [acceptedWrites, isValid_congr_db h tx, ih]

theorem acceptedWrites_cons_accepted (app : KVStoreApplication) {tx k v : Bytes}
    (txs : List Bytes) (h0 : app.isValid tx = .ok 0) (hs : Split tx eqSep = [k, v]) :
    acceptedWrites app (tx :: txs) = (k, v) :: acceptedWrites app txs := by
  simp [acceptedWrites, h0, hs]

theorem acceptedWrites_cons_rejected (app : KVStoreApplication) {tx : Bytes} {code : Nat}
    (txs : List Bytes) (hv : app.isValid tx = .ok code) (hc : code ≠ 0) :
    acceptedWrites app (tx :: txs) = acceptedWrites app txs := by
  cases code with
  | zero => exact absurd rfl hc
  | succ n => simp [acceptedWrites, hv]

/-- Deliveries into a batch leave the committed store alone and append the accepted
writes to the batch, in delivery order. -/
theorem calls_deliveries (txs : List Bytes) (app app1 : KVStoreApplication) (batch : Txn)
    (hb : app.currentBatch = some batch)
    (hc : app.calls (txs.map Call.DeliverTx) = .ok app1) :
    app1.db = app.db ∧
      app1.currentBatch =
        some { batch with writes := batch.writes ++ acceptedWrites app txs } := by
  induction txs generalizing app batch with
  | nil =>
    simp only [List.map_nil, KVStoreApplication.calls, Except.ok.injEq] at hc
    subst hc
    simp [acceptedWrites, hb]
  | cons tx txs ih =>
    simp only [List.map_cons, KVStoreApplication.calls, KVStoreApplication.call] at hc
    cases hd : app.DeliverTx tx with
    | error p => simp [hd] at hc
    | ok res =>
      obtain ⟨a, r⟩ := res
      simp only [hd] at hc
      rcases DeliverTx_inv app a r hd with
        ⟨h1, h2, h3⟩ | ⟨k, v, batch1, hs, h0, hcb, _, _, _, _, _, h1⟩
      · subst h1
        obtain ⟨h4, h5⟩ := ih a batch hb hc
        exact ⟨h4, by rw [h5, acceptedWrites_cons_rejected a txs h3 h2]⟩
      · rw [hb] at hcb
        cases hcb
        subst h1
        obtain ⟨h4, h5⟩ := ih _ _ rfl hc
        refine ⟨h4, ?_⟩
        rw [h5, acceptedWrites_cons_accepted app txs h0 hs]
        have hcg := acceptedWrites_congr_db
          (a := ⟨app.db, some ⟨batch.writes ++ [(k, v)], batch.discarded⟩⟩) (b := app) rfl txs
        simp only [List.append_assoc, List.singleton_append, hcg]

/-- The store after a block: the store before, overwritten by the accepted writes in
delivery order. -/
theorem block_store (app app1 : KVStoreApplication) (txs : List Bytes)
    (hc : app.calls (.BeginBlock :: txs.map Call.DeliverTx ++ [.Commit]) = .ok app1) :
    app1.db = applyWrites app.db (acceptedWrites app txs) := by
  rw [List.cons_append, KVStoreApplication.calls] at hc
  simp only [KVStoreApplication.call] at hc
  rw [calls_append] at hc
  cases hd : app.BeginBlock.calls (txs.map Call.DeliverTx) with
  | error p => simp [hd] at hc
  | ok a =>
    simp only [hd, KVStoreApplication.calls, KVStoreApplication.call] at hc
    obtain ⟨h1, h2⟩ := calls_deliveries txs app.BeginBlock a ⟨[], false⟩ rfl hd
    cases hcm : a.Commit with
    | error p => simp [hcm] at hc
    | ok res =>
      obtain ⟨a2, r⟩ := res
      simp only [hcm, Except.ok.injEq] at hc
      subst hc
      obtain ⟨batch, hb, _, _, h3⟩ := Commit_inv a a2 r hcm
      rw [h2] at hb
      cases hb
      subst h3
      simp only [h1, List.nil_append]
      rw [acceptedWrites_congr_db (a := app.BeginBlock) (b := app) rfl]
      rfl

/-- Reading after a sequence of writes: the last write to the key, else what the store
held. -/
theorem find_applyWrites (db : DB) (ws : List (Bytes × Bytes)) (key : Bytes) :
    (applyWrites db ws).find key =
      match lastWrite ws key with
      | some v => some v
      | none => db.find key := by
  induction ws generalizing db with
  | nil => rfl
  | cons w ws ih =>
    obtain ⟨k, v⟩ := w
    have h1 : applyWrites db ((k, v) :: ws) = applyWrites (db.put k v) ws := rfl
    rw [h1, ih, lastWrite]
    cases lastWrite ws key with
    | some w => rfl
    | none =>
      simp only [DB.find_put]
      by_cases hk : key = k
      · subst hk; simp
      · have hk2 : ¬ k = key := fun e => hk e.symm
        simp [hk, hk2]


/-- C15 (amended): for a non-empty key `k` without `=` and without `patient_search_`,
absent from the committed store and accepted by the storage engine, and values
`v1 ≠ v2` without `=`, the block `BeginBlock`, `DeliverTx(k=v1)`, `DeliverTx(k=v2)`,
`Commit` yields code 0 for both deliveries and a store in which `Query(k)` returns `v2`;
and for every block of deliveries that runs to the end of its `Commit`, the committed
store afterwards is the store before overwritten by the accepted writes in delivery
order, so that each key holds the last value written to it, or else what it held
before. -/
theorem later_write_wins (app : KVStoreApplication) (k v1 v2 : Bytes)
    (hk : k ≠ []) (hke : (0x3D : UInt8) ∉ k) (hv1e : (0x3D : UInt8) ∉ v1)
    (hv2e : (0x3D : UInt8) ∉ v2) (_hne : v1 ≠ v2)
    (habs : app.db.find k = none) (hmark : Contains k searchMarker = false)
    (hpre : badgerPrefix.isPrefixOf k = false) (hlen : k.length ≤ maxKeySize) :
    (∃ app1 app2 app3,
      app.BeginBlock.DeliverTx (k ++ eqSep ++ v1) = .ok (app1, { Code := 0 }) ∧
      app1.DeliverTx (k ++ eqSep ++ v2) = .ok (app2, { Code := 0 }) ∧
      app2.Commit = .ok (app3, { Data := [] }) ∧
      app3.Query k = .ok { Code := 0, Log := "exists", Key := k, Value := v2 }) ∧
    (∀ (txs : List Bytes) (app4 : KVStoreApplication),
      app.calls (.BeginBlock :: txs.map Call.DeliverTx ++ [.Commit]) = .ok app4 →
      app4.db = applyWrites app.db (acceptedWrites app txs) ∧
        ∀ key, app4.db.find key =
          match lastWrite (acceptedWrites app txs) key with
          | some v => some v
          | none => app.db.find key) := by
  have hs1 := Split_tx hke hv1e
  have hs2 := Split_tx hke hv2e
  have h0 : ∀ b v, (0x3D : UInt8) ∉ v →
      KVStoreApplication.isValid ⟨app.db, b⟩ (k ++ eqSep ++ v) = .ok 0 := by
    intro b v hv
    rw [isValid_of_Split _ (Split_tx hke hv) hk]
    simp [habs]
  refine ⟨⟨⟨app.db, some ⟨[(k, v1)], false⟩⟩, ⟨app.db, some ⟨[(k, v1), (k, v2)], false⟩⟩,
    ⟨applyWrites app.db [(k, v1), (k, v2)], some ⟨[(k, v1), (k, v2)], true⟩⟩,
    ?_, ?_, ?_, ?_⟩, fun txs app4 hc => ?_⟩
  · rw [DeliverTx_of_accepted app.BeginBlock hs1 (h0 _ v1 hv1e)]
    simp [KVStoreApplication.BeginBlock, Txn.Set_fresh v1 hk hpre hlen]
  · rw [DeliverTx_of_accepted _ hs2 (h0 _ v2 hv2e)]
    simp [Txn.Set_second v1 v2 hlen hk hpre hlen]
  · simp [KVStoreApplication.Commit]
  · rw [Query_direct _ hmark hk]
    have : (applyWrites app.db [(k, v1), (k, v2)]).find k = some v2 :=
      find_applyWrites_last app.db [(k, v1)] k v2
    simp [this]
  · have hdb := block_store app app4 txs hc
    exact ⟨hdb, fun key => by rw [hdb, find_applyWrites]⟩

/-- Witness of C15: `k=a` and `k=b` delivered in one block on the empty store. -/
theorem later_write_wins_witness :
    ∃ app1 app2 app3,
      (NewKVStoreApplication []).BeginBlock.DeliverTx (ascii "k" ++ eqSep ++ ascii "a") =
        .ok (app1, { Code := 0 }) ∧
      app1.DeliverTx (ascii "k" ++ eqSep ++ ascii "b") = .ok (app2, { Code := 0 }) ∧
      app2.Commit = .ok (app3, { Data := [] }) ∧
      app3.Query (ascii "k") =
        .ok { Code := 0, Log := "exists", Key := ascii "k", Value := ascii "b" } :=
  (later_write_wins (NewKVStoreApplication []) (ascii "k") (ascii "a") (ascii "b")
    (by decide) (by decide) (by decide) (by decide) (by decide) (by decide) (by decide)
    (by decide) (by decide)).1

/-- C15 fails as stated.  For the key `patient_search_7`, absent from the empty store,
both deliveries return code 0 and the store after `Commit` holds the second value, but
`Query(patient_search_7)` answers `does not exist` with an empty Value; and for the key
`!badger!x` the first delivery ends in the panic on `ErrInvalidKey`. -/
theorem later_write_wins_counterexample :
    (NewKVStoreApplication []).BeginBlock.DeliverTx (ascii "patient_search_7=a") =
      .ok (⟨[], some ⟨[(ascii "patient_search_7", ascii "a")], false⟩⟩, { Code := 0 }) ∧
    (KVStoreApplication.mk [] (some ⟨[(ascii "patient_search_7", ascii "a")], false⟩)).DeliverTx
        (ascii "patient_search_7=b") =
      .ok (⟨[], some ⟨[(ascii "patient_search_7", ascii "a"),
        (ascii "patient_search_7", ascii "b")], false⟩⟩, { Code := 0 }) ∧
    (NewKVStoreApplication []).calls
        [.BeginBlock, .DeliverTx (ascii "patient_search_7=a"),
          .DeliverTx (ascii "patient_search_7=b"), .Commit] =
      .ok ⟨[(ascii "patient_search_7", ascii "b")],
        some ⟨[(ascii "patient_search_7", ascii "a"), (ascii "patient_search_7", ascii "b")],
          true⟩⟩ ∧
    queryAfter (NewKVStoreApplication [])
        [.BeginBlock, .DeliverTx (ascii "patient_search_7=a"),
          .DeliverTx (ascii "patient_search_7=b"), .Commit]
        (ascii "patient_search_7") =
      .ok { Code := 0, Log := "does not exist", Key := ascii "patient_search_7",
            Value := [] } ∧
    (NewKVStoreApplication []).BeginBlock.DeliverTx (ascii "!badger!x=a") =
      .error (.storage .ErrInvalidKey) := by
  refine ⟨?_, ?_, ?_, ?_, ?_⟩ <;> decide

/-! ## Occurrences of the separator -/

theorem Index_some_isPrefixOf {s sep : Bytes} {i : Nat} (h : Index s sep = some i) :
    sep.isPrefixOf (s.drop i) = true := by
  induction s generalizing i with
  | nil =>
    rw [Index] at h
    by_cases hp : sep.isPrefixOf [] = true
    · simpa using hp
    · simp [hp] at h
  | cons a t ih =>
    rw [Index] at h
    by_cases hp : sep.isPrefixOf (a :: t) = true
    · simp only [hp, if_true, Option.some.injEq] at h
      subst h
      exact hp
    · simp only [hp, Bool.false_eq_true, if_false] at h
      cases hi : Index t sep with
      | none => rw [hi] at h; cases h
      | some j =>
        rw [hi] at h
        cases h
        exact ih hi

/-- `Index` returns the first position at which the separator occurs. -/
theorem Index_le_of_occurs {s sep : Bytes} {j : Nat}
    (h : sep.isPrefixOf (s.drop j) = true) : ∃ i, Index s sep = some i ∧ i ≤ j := by
  induction s generalizing j with
  | nil =>
    have h0 : sep.isPrefixOf [] = true := by simpa using h
    exact ⟨0, by rw [Index, if_pos h0], Nat.zero_le _⟩
  | cons a t ih =>
    by_cases hp : sep.isPrefixOf (a :: t) = true
    · exact ⟨0, by rw [Index, if_pos hp], Nat.zero_le _⟩
    · cases j with
      | zero => exact absurd h hp
      | succ j =>
        obtain ⟨i, hi, hij⟩ := ih (j := j) (by simpa using h)
        refine ⟨i + 1, ?_, Nat.succ_le_succ hij⟩
        rw [Index]
        simp [hp, hi]

theorem mem_occurrences {s sep : Bytes} (hsep : sep ≠ []) (i : Nat) :
    i ∈ occurrences s sep ↔ sep.isPrefixOf (s.drop i) = true := by
  simp only [occurrences, List.mem_filter, List.mem_range, and_iff_right_iff_imp]
  intro h
  have h1 := (List.isPrefixOf_iff_prefix.mp h).length_le
  have hpos : 0 < sep.length := List.length_pos.mpr hsep
  rw [List.length_drop] at h1
  omega

theorem occurrences_pairwise (s sep : Bytes) : (occurrences s sep).Pairwise (· < ·) :=
  (List.pairwise_lt_range _).sublist (List.filter_sublist _)

/-- With the first occurrence at `i` and none behind it, the split has the two parts
around that occurrence. -/
theorem Split_once {s sep : Bytes} {i : Nat} (hi : Index s sep = some i)
    (hrest : Index (s.drop (i + sep.length)) sep = none) :
    Split s sep = [s.take i, s.drop (i + sep.length)] := by
  have hc : Count s sep = 1 := by
    rw [Count]
    cases hl : s.length with
    | zero =>
      have hs : s = [] := List.length_eq_zero.mp hl
      subst hs
      have hle := Index_some_le hi
      have hi0 : i = 0 := by simp at hle; omega
      have hsep : sep = [] := by
        simp only [List.length_nil] at hle
        exact List.length_eq_zero.mp (by omega)
      subst hi0; subst hsep
      simp [Index, List.isPrefixOf] at hrest
    | succ f =>
      rw [countLoop, hi]
      simp only
      cases f with
      | zero => rfl
      | succ g => rw [countLoop, hrest]
  rw [Split, hc, genSplit, hi]
  simp [genSplit]

/-- With the first occurrence at `i` and the next one `j` bytes behind it, the second
part of the split is the text between the two. -/
theorem Split_twice_second {s sep : Bytes} {i j : Nat} (hsep : sep ≠ [])
    (hi : Index s sep = some i) (hj : Index (s.drop (i + sep.length)) sep = some j) :
    (Split s sep)[1]? = some ((s.drop (i + sep.length)).take j) := by
  have hpos : 0 < sep.length := List.length_pos.mpr hsep
  have hle := Index_some_le hi
  have hle2 := Index_some_le hj
  rw [List.length_drop] at hle2
  obtain ⟨c, hc⟩ : ∃ c, Count s sep = c + 2 := by
    rw [Count]
    obtain ⟨f, hf⟩ : ∃ f, s.length = f + 2 := ⟨s.length - 2, by omega⟩
    rw [hf, countLoop, hi]
    simp only
    rw [countLoop, hj]
    exact ⟨_, rfl⟩
  rw [Split, hc, genSplit, hi]
  simp only
  rw [genSplit, hj]
  simp

/-- Two occurrences of `patient_search_` do not overlap. -/
theorem searchMarker_apart (s : Bytes) (i d : Nat) (hd : 0 < d) (hd2 : d < searchMarker.length)
    (h1 : searchMarker.isPrefixOf (s.drop i) = true)
    (h2 : searchMarker.isPrefixOf (s.drop (i + d)) = true) : False := by
  obtain ⟨t, ht⟩ := List.isPrefixOf_iff_prefix.mp h1
  have hdd : s.drop (i + d) = (searchMarker ++ t).drop d := by
    rw [ht, List.drop_drop, Nat.add_comm]
  rw [hdd] at h2
  have hm : searchMarker =
      [112, 97, 116, 105, 101, 110, 116, 95, 115, 101, 97, 114, 99, 104, 95] := by decide
  have hlen : searchMarker.length = 15 := by decide
  rw [hlen] at hd2
  rw [hm] at h2
  interval_cases d <;> simp [List.isPrefixOf] at h2

/-- When the first two occurrences of the marker are at `m1` and `m2`, `Index` finds the
first at `m1` and, behind it, the second after `m2 - (m1 + 15)` bytes. -/
theorem Index_of_occurrences {data : Bytes} {m1 m2 : Nat} {rest : List Nat}
    (h : occurrences data searchMarker = m1 :: m2 :: rest) :
    Index data searchMarker = some m1 ∧ m1 + searchMarker.length ≤ m2 ∧
      Index (data.drop (m1 + searchMarker.length)) searchMarker =
        some (m2 - (m1 + searchMarker.length)) := by
  have hpw := occurrences_pairwise data searchMarker
  rw [h] at hpw
  have hmem : ∀ i, searchMarker.isPrefixOf (data.drop i) = true ↔ i ∈ m1 :: m2 :: rest := by
    intro i; rw [← h, mem_occurrences searchMarker_ne_nil]
  have ho1 : searchMarker.isPrefixOf (data.drop m1) = true := (hmem m1).mpr (by simp)
  have ho2 : searchMarker.isPrefixOf (data.drop m2) = true := (hmem m2).mpr (by simp)
  have h12 : m1 < m2 := (List.pairwise_cons.mp hpw).1 m2 (by simp)
  have hge1 : ∀ i ∈ m1 :: m2 :: rest, m1 ≤ i := by
    intro i hi
    rcases List.mem_cons.mp hi with h1 | h1
    · omega
    · exact Nat.le_of_lt ((List.pairwise_cons.mp hpw).1 i h1)
  have hge2 : ∀ i ∈ m1 :: m2 :: rest, i ≠ m1 → m2 ≤ i := by
    intro i hi hne
    rcases List.mem_cons.mp hi with h1 | h1
    · exact absurd h1 hne
    · rcases List.mem_cons.mp h1 with h2 | h2
      · omega
      · exact Nat.le_of_lt
          ((List.pairwise_cons.mp (List.pairwise_cons.mp hpw).2).1 i h2)
  have hapart : m1 + searchMarker.length ≤ m2 := by
    by_contra hlt
    exact searchMarker_apart data m1 (m2 - m1) (by omega) (by omega) ho1
      (by rw [show m1 + (m2 - m1) = m2 by omega]; exact ho2)
  have hi1 : Index data searchMarker = some m1 := by
    obtain ⟨i, hi, hle⟩ := Index_le_of_occurs ho1
    have := hge1 i ((hmem i).mp (Index_some_isPrefixOf hi))
    rw [hi, show i = m1 by omega]
  refine ⟨hi1, hapart, ?_⟩
  have hdrop : ∀ j, (data.drop (m1 + searchMarker.length)).drop j =
      data.drop (m1 + searchMarker.length + j) := by
    intro j; rw [List.drop_drop, Nat.add_comm]
  have ho2b : searchMarker.isPrefixOf
      ((data.drop (m1 + searchMarker.length)).drop (m2 - (m1 + searchMarker.length))) = true := by
    rw [hdrop, show m1 + searchMarker.length + (m2 - (m1 + searchMarker.length)) = m2 by omega]
    exact ho2
  obtain ⟨j, hj, hle⟩ := Index_le_of_occurs ho2b
  have hjo := Index_some_isPrefixOf hj
  rw [hdrop] at hjo
  have hpos : 0 < searchMarker.length := by decide
  have := hge2 _ ((hmem _).mp hjo) (by omega)
  rw [hj, show j = m2 - (m1 + searchMarker.length) by omega]

/-- The text in front of an occurrence found by `Index` does not contain the
separator. -/
theorem Contains_take_Index {s sep : Bytes} {d : Nat} (hsep : sep ≠ [])
    (hd : Index s sep = some d) : Contains (s.take d) sep = false := by
  rw [Contains]
  cases hi : Index (s.take d) sep with
  | none => rfl
  | some j =>
    exfalso
    have hpos : 0 < sep.length := List.length_pos.mpr hsep
    have hjle := Index_some_le hi
    rw [List.length_take] at hjle
    have hp := List.isPrefixOf_iff_prefix.mp (Index_some_isPrefixOf hi)
    have hp2 : (s.take d).drop j <+: s.drop j := by
      rw [List.drop_take]
      exact List.take_prefix _ _
    obtain ⟨i, hi2, hle⟩ := Index_le_of_occurs (List.isPrefixOf_iff_prefix.mpr (hp.trans hp2))
    rw [hd] at hi2
    cases hi2
    omega

/-- C20: the composite lookup ignores what stands before the marker.  For a request
`p ++ patient_search_ ++ id` in which the marker occurs exactly once, `Query` returns the
response of `Query(patient_search_ ++ id)` with the request as Key: the same Code, Log
and Value, whatever `p` is.  And when the marker occurs more than once in a request, the
identifier looked up is the text between its first and second occurrence: `Query` returns
the response for that identifier. -/
theorem composite_ignores_leading_text (app : KVStoreApplication) (p id : Bytes)
    (hocc : occurrences (p ++ searchMarker ++ id) searchMarker = [p.length]) :
    (∃ r, app.Query (searchMarker ++ id) = .ok r ∧
      app.Query (p ++ searchMarker ++ id) = .ok { r with Key := p ++ searchMarker ++ id }) ∧
    (∀ (data : Bytes) (m1 m2 : Nat) (rest : List Nat),
      occurrences data searchMarker = m1 :: m2 :: rest →
      m1 + searchMarker.length ≤ m2 ∧
      (Split data searchMarker)[1]? =
        some ((data.drop (m1 + searchMarker.length)).take (m2 - (m1 + searchMarker.length))) ∧
      ∃ r, app.Query (searchMarker ++
            (data.drop (m1 + searchMarker.length)).take (m2 - (m1 + searchMarker.length))) =
          .ok r ∧
        app.Query data = .ok { r with Key := data }) := by
  constructor
  · have hmem : ∀ i, searchMarker.isPrefixOf ((p ++ searchMarker ++ id).drop i) = true ↔
        i = p.length := by
      intro i
      rw [← mem_occurrences searchMarker_ne_nil, hocc, List.mem_singleton]
    have ho : searchMarker.isPrefixOf ((p ++ searchMarker ++ id).drop p.length) = true :=
      (hmem _).mpr rfl
    have hi1 : Index (p ++ searchMarker ++ id) searchMarker = some p.length := by
      obtain ⟨i, hi, _⟩ := Index_le_of_occurs ho
      rw [hi, (hmem i).mp (Index_some_isPrefixOf hi)]
    have hdrop : (p ++ searchMarker ++ id).drop (p.length + searchMarker.length) = id := by
      rw [← List.length_append, List.drop_left]
    have hid : Contains id searchMarker = false := by
      rw [Contains]
      cases hi : Index id searchMarker with
      | none => rfl
      | some j =>
        exfalso
        have hj := Index_some_isPrefixOf hi
        rw [← hdrop, List.drop_drop] at hj
        have := (hmem _).mp hj
        have hpos : 0 < searchMarker.length := by decide
        omega
    have hsplit : Split (p ++ searchMarker ++ id) searchMarker = [p, id] := by
      have hnone : Index ((p ++ searchMarker ++ id).drop (p.length + searchMarker.length))
          searchMarker = none := by
        rw [hdrop]; simpa [Contains] using hid
      rw [Split_once hi1 hnone, hdrop, List.append_assoc, List.take_left]
    have hm : Contains (p ++ searchMarker ++ id) searchMarker = true := by
      rw [Contains, hi1]; rfl
    refine ⟨_, Query_search app hid, ?_⟩
    rw [@Query_composite app (p ++ searchMarker ++ id) id hm (by rw [hsplit]; rfl)]
    cases app.db.find (ascii "patient_name_" ++ id) <;>
      cases app.db.find (ascii "patient_age_" ++ id) <;>
      cases app.db.find (ascii "patient_sick_" ++ id) <;> rfl
  · intro data m1 m2 rest h
    obtain ⟨hi1, hapart, hi2⟩ := Index_of_occurrences h
    have hs := Split_twice_second searchMarker_ne_nil hi1 hi2
    have hid := Contains_take_Index searchMarker_ne_nil hi2
    have hm : Contains data searchMarker = true := by
      rw [Contains, hi1]; rfl
    refine ⟨hapart, hs, _, Query_search app hid, ?_⟩
    rw [Query_composite app hm hs]
    generalize (data.drop (m1 + searchMarker.length)).take (m2 - (m1 + searchMarker.length)) = x
    cases app.db.find (ascii "patient_name_" ++ x) <;>
      cases app.db.find (ascii "patient_age_" ++ x) <;>
      cases app.db.find (ascii "patient_sick_" ++ x) <;> rfl

/-- Witness of C20: the request `xpatient_search_7` on the store holding the record of
identifier 7. -/
theorem composite_ignores_leading_text_witness :
    ∃ r, (NewKVStoreApplication [(ascii "patient_name_7", ascii "Alice"),
        (ascii "patient_age_7", ascii "40"), (ascii "patient_sick_7", ascii "false")]).Query
        (searchMarker ++ ascii "7") = .ok r ∧
      (NewKVStoreApplication [(ascii "patient_name_7", ascii "Alice"),
        (ascii "patient_age_7", ascii "40"), (ascii "patient_sick_7", ascii "false")]).Query
        (ascii "x" ++ searchMarker ++ ascii "7") =
        .ok { r with Key := ascii "x" ++ searchMarker ++ ascii "7" } :=
  (composite_ignores_leading_text _ (ascii "x") (ascii "7") (by decide)).1

/-! ## The batch limits at work -/

/-- The size limit of a batch: with `n` writes of an `m`-byte key and a one-byte value
buffered, the next such write is refused once the estimated size reaches the limit. -/
theorem Txn.Set_size_limit (n m : Nat) (hm : 0 < m) (hm2 : m ≤ maxKeySize)
    (hfull : maxBatchSize ≤ 21 + n * (m + 13) + (m + 13)) :
    Txn.Set ⟨List.replicate n (List.replicate m 0x6B, ascii "v"), false⟩
        (List.replicate m 0x6B) (ascii "v") = .error .ErrTxnTooBig := by
  obtain ⟨m1, rfl⟩ : ∃ m1, m = m1 + 1 := ⟨m - 1, by omega⟩
  have hne : ¬ List.replicate (m1 + 1) (0x6B : UInt8) = [] := by
    rw [List.replicate_succ]; exact List.cons_ne_nil _ _
  have hp : badgerPrefix.isPrefixOf (List.replicate (m1 + 1) (0x6B : UInt8)) = false := by
    rw [List.replicate_succ]; rfl
  have hl : ¬ maxKeySize < (List.replicate (m1 + 1) (0x6B : UInt8)).length := by
    rw [List.length_replicate]; omega
  have he : estimateSize (List.replicate (m1 + 1) 0x6B) (ascii "v") = m1 + 1 + 3 := by
    have hv : (ascii "v").length = 1 := by decide
    simp [estimateSize, ValueThreshold, hv, List.length_replicate]
  have hsz : Txn.size ⟨List.replicate n (List.replicate (m1 + 1) 0x6B, ascii "v"), false⟩ =
      21 + n * (m1 + 1 + 13) := by
    simp only [Txn.size, List.map_replicate, List.sum_replicate, he, smul_eq_mul]
  have hcond : maxBatchSize ≤
      Txn.size ⟨List.replicate n (List.replicate (m1 + 1) 0x6B, ascii "v"), false⟩ +
        (estimateSize (List.replicate (m1 + 1) 0x6B) (ascii "v") + 10) := by
    rw [hsz, he]; omega
  simp only [Txn.Set, hne, hp, hl, hcond]
  simp

/-- With the limits of `badger.DefaultOptions`, a batch that holds 3340 writes of a
3000-byte key refuses the 3341st, and a batch that holds 104855 writes refuses the
104856th. -/
theorem Txn.Set_default_limits :
    Txn.Set ⟨List.replicate 3340 (List.replicate 3000 0x6B, ascii "v"), false⟩
        (List.replicate 3000 0x6B) (ascii "v") = .error .ErrTxnTooBig ∧
    (KVStoreApplication.mk []
        (some ⟨List.replicate 104855 (ascii "a", ascii "b"), false⟩)).DeliverTx (ascii "k=v") =
      .error (.storage .ErrTxnTooBig) :=
  ⟨Txn.Set_size_limit 3340 3000 (by decide) (by decide) (by decide),
    DeliverTx_full_batch 104855 (by decide)⟩

end KV
